import Mathlib

/-! # The VPI inter-process protocol of migen (`vpi/ipc.c`)

A shallow embedding of `ipc_receive`, `ipc_tick` and `ipc_read_reply` from
`vpi/ipc.c`, in both of their compilations (message-preserving
`SOCK_SEQPACKET` socket, and stream socket under `_WIN32`), and theorems about
the frames they accept, reject and send.

Conventions of the embedding.

* A byte (`unsigned char`) is a `Nat`; the receive buffer
  `unsigned char buffer[MAX_LEN]` is a `List Nat`.  Every array access is
  checked: an access outside the list is the status `outOfBounds` (undefined
  behaviour in C).
* `int` values produced by `<<` and `|` are kept as their 32-bit
  two's-complement bit pattern, a `Nat` below `2 ^ 32` (GCC defines `<<` on
  signed operands this way); the conversion to `unsigned int` is then the
  identity on patterns.
* `assert` is compiled in (the file defines no `NDEBUG`): a failed assertion
  ends the run with the status `assertFailed` before any later statement.
* The handlers of `struct ipc_softc` are functions returning the `int` they
  return; every invocation is also recorded, with its arguments, in the
  `calls` trace of the outcome.  A `char *name` argument is the list of bytes
  before the terminating null, a `chunks` pointer is the `nchunks` bytes it
  points to.
* `ipc_receive` never assigns through `sc`; the outcome carries the record
  after the call so that successive calls can be chained.
-/

namespace Ipc

set_option autoImplicit false

/-! ## Data model -/

/-- Modelled from the spec: the type `go_handler` of `ipc.h`, a header that is
not among the sources; the spec gives `on_advance(context) -> int`. -/
abbrev go_handler (U : Type) : Type := U → Int

/-- Modelled from the spec: the type `write_handler` of `ipc.h`, a header that
is not among the sources; the spec gives
`on_write(name, chunk_index, chunk_count, chunk_data, context) -> int` with
`chunk_index` an unsigned 32-bit value, which is also the type of the variable
`ipc_receive` passes. -/
abbrev write_handler (U : Type) : Type := List Nat → Nat → Nat → List Nat → U → Int

/-- Modelled from the spec: the type `read_handler` of `ipc.h`, a header that
is not among the sources; the spec gives `on_read(name, index, context) -> int`
with `index` an unsigned 32-bit value, which is also the type of the variable
`ipc_receive` passes. -/
abbrev read_handler (U : Type) : Type := List Nat → Nat → U → Int

/-- The connection record `struct ipc_softc`; `U` is the type behind
`void *user`. -/
structure ipc_softc (U : Type) where
  socket : Int
  h_go : go_handler U
  h_write : write_handler U
  h_read : read_handler U
  user : U

def MESSAGE_TICK : Nat := 0
def MESSAGE_GO : Nat := 1
def MESSAGE_WRITE : Nat := 2
def MESSAGE_READ : Nat := 3
def MESSAGE_READ_REPLY : Nat := 4

def MAX_LEN : Nat := 2048

/-- One handler invocation together with the arguments it received. -/
inductive Call (U : Type) where
  | go (user : U)
  | write (name : List Nat) (chunk_index : Nat) (nchunks : Nat) (chunks : List Nat) (user : U)
  | read (name : List Nat) (name_index : Nat) (user : U)
  deriving DecidableEq, Repr

/-- How a run of `ipc_receive` ends. -/
inductive Status where
  /-- The function returned this `int`. -/
  | returned (r : Int)
  /-- An `assert` failed: the process is aborted. -/
  | assertFailed
  /-- An access outside `buffer[0 .. MAX_LEN-1]`. -/
  | outOfBounds
  /-- A `recv` that never returns (stream transport with nothing left to deliver). -/
  | blocked
  deriving DecidableEq, Repr

/-- The result of one call: how it ended, the handler invocations it made, in
order, and the connection record afterwards. -/
structure Outcome (U : Type) where
  status : Status
  calls : List (Call U)
  sc : ipc_softc U

/-! ## Primitive operations -/

/-- The C library `strlen` on the bytes from a position to the end of the
array: the number of bytes before the first null, `none` when the scan leaves
the array. -/
def strlen : List Nat → Option Nat
  | [] => none
  | b :: bs => if b = 0 then some 0 else (strlen bs).map (· + 1)

/-- The C expression `x << k` on a 32-bit `int`, as a bit pattern. -/
def shl32 (x k : Nat) : Nat := (x <<< k) % 2 ^ 32

/-- The expression
`buffer[i] | buffer[i+1] << 8 | buffer[i+2] << 16 | buffer[i+3] << 24`
converted to `unsigned int`. -/
def load_le32 (buffer : List Nat) (i : Nat) : Option Nat :=
  match buffer[i]?, buffer[i+1]?, buffer[i+2]?, buffer[i+3]? with
  | some b0, some b1, some b2, some b3 =>
    some (b0 ||| shl32 b1 8 ||| shl32 b2 16 ||| shl32 b3 24)
  | _, _, _, _ => none

/-! ## `ipc_receive` -/

/-- The message unpacking code of `ipc_receive`, `switch(buffer[i++])`, run
with `l` bytes accounted as received and the cursor at `i`. -/
def ipc_receive_switch {U : Type} (sc : ipc_softc U) (buffer : List Nat) (l : Int) (i : Nat) :
    Outcome U :=
  match buffer[i]? with
  | none => ⟨.outOfBounds, [], sc⟩
  | some tag =>
    let i := i + 1
    if tag = MESSAGE_GO then
      if l - (i : Int) = 0 then
        ⟨.returned (sc.h_go sc.user), [.go sc.user], sc⟩
      else ⟨.assertFailed, [], sc⟩
    else if tag = MESSAGE_WRITE then
      match strlen (buffer.drop i) with
      | none => ⟨.outOfBounds, [], sc⟩
      | some n =>
        let name := (buffer.drop i).take n
        let i := i + (n + 1)
        if (i : Int) + 4 < l then
          match load_le32 buffer i with
          | none => ⟨.outOfBounds, [], sc⟩
          | some chunk_index =>
            let i := i + 4
            match buffer[i]? with
            | none => ⟨.outOfBounds, [], sc⟩
            | some nchunks =>
              let i := i + 1
              if (i : Int) + (nchunks : Int) = l then
                let chunks := (buffer.drop i).take nchunks
                ⟨.returned (sc.h_write name chunk_index nchunks chunks sc.user),
                  [.write name chunk_index nchunks chunks sc.user], sc⟩
              else ⟨.assertFailed, [], sc⟩
        else ⟨.assertFailed, [], sc⟩
    else if tag = MESSAGE_READ then
      match strlen (buffer.drop i) with
      | none => ⟨.outOfBounds, [], sc⟩
      | some n =>
        let name := (buffer.drop i).take n
        let i := i + (n + 1)
        if (i : Int) + 4 = l then
          match load_le32 buffer i with
          | none => ⟨.outOfBounds, [], sc⟩
          | some name_index =>
            ⟨.returned (sc.h_read name name_index sc.user),
              [.read name name_index sc.user], sc⟩
        else ⟨.assertFailed, [], sc⟩
    else ⟨.returned 0, [], sc⟩

/-- The function `ipc_receive` as compiled without `_WIN32` (message-preserving
`SOCK_SEQPACKET` socket).  `l` is what `recv(sc->socket, buffer, MAX_LEN, 0)`
returned and `buffer` the contents of the array after that call: the received
bytes at the positions below `l`, whatever the array held before at the
others. -/
def ipc_receive {U : Type} (sc : ipc_softc U) (l : Int) (buffer : List Nat) : Outcome U :=
  if l = 0 then ⟨.returned 2, [], sc⟩
  else if l < 0 ∨ l ≥ (MAX_LEN : Int) then ⟨.returned 0, [], sc⟩
  else ipc_receive_switch sc buffer l 0

/-! ## `ipc_receive` on a stream socket (`_WIN32`) -/

/-- What one call of `recv` on the stream socket does: it delivers some bytes
(none at all: the peer has shut the connection down and `recv` returns 0), or
it fails and returns `SOCKET_ERROR`, a negative number.  A run of the
transport is the list of these, one for each call in order; when the list is
used up the next `recv` never returns.  A call never delivers more than the
`len` it was given: a longer entry is cut to `len`. -/
inductive RecvEvent where
  | bytes (bs : List Nat)
  | failure
  deriving DecidableEq, Repr

/-- The array after `recv` has stored `bs` from position `off` on. -/
def store (buffer : List Nat) (off : Nat) (bs : List Nat) : List Nat :=
  buffer.take off ++ bs ++ buffer.drop (off + bs.length)

/-- The expression `((buffer[1] << 8) | (buffer[0]))` assigned to the `int`
`expected_num`. -/
def load_le16 (buffer : List Nat) : Option Nat :=
  match buffer[1]?, buffer[0]? with
  | some b1, some b0 => some (shl32 b1 8 ||| b0)
  | _, _ => none

/-- The second loop of `ipc_receive` under `_WIN32`,
`while(l < expected_num)`, followed by `i = 2` and the message unpacking
code.  `l` and `received_num` are the values of the C variables when the loop
condition is evaluated. -/
def ipc_receive_win32_rest {U : Type} (sc : ipc_softc U) (expected_num : Nat) :
    List RecvEvent → List Nat → Nat → Nat → Outcome U
  | t, buffer, l, received_num =>
    if l < expected_num then
      match t with
      | [] => ⟨.blocked, [], sc⟩
      | .failure :: _ => ⟨.returned 0, [], sc⟩
      | .bytes bs :: rest =>
        let got := bs.take (MAX_LEN - received_num)
        let received_num := got.length
        if received_num = 0 then ⟨.returned 2, [], sc⟩
        else if l + received_num > MAX_LEN then ⟨.outOfBounds, [], sc⟩
        else if received_num ≥ MAX_LEN ∨ l + received_num ≥ MAX_LEN then ⟨.returned 0, [], sc⟩
        else ipc_receive_win32_rest sc expected_num rest (store buffer l got)
          (l + received_num) received_num
    else ipc_receive_switch sc buffer l 2

/-- The first loop of `ipc_receive` under `_WIN32`, `while(received_num < 2)`,
followed by the computation of `expected_num` and the rest of the function. -/
def ipc_receive_win32_header {U : Type} (sc : ipc_softc U) :
    List RecvEvent → List Nat → Nat → Nat → Outcome U
  | t, buffer, l, received_num =>
    if received_num < 2 then
      match t with
      | [] => ⟨.blocked, [], sc⟩
      | .failure :: _ => ⟨.returned 0, [], sc⟩
      | .bytes bs :: rest =>
        let got := bs.take (MAX_LEN - received_num)
        let received_num := got.length
        if received_num = 0 then ⟨.returned 2, [], sc⟩
        else if l + received_num > MAX_LEN then ⟨.outOfBounds, [], sc⟩
        else if received_num ≥ MAX_LEN ∨ l + received_num ≥ MAX_LEN then ⟨.returned 0, [], sc⟩
        else ipc_receive_win32_header sc rest (store buffer l got)
          (l + received_num) received_num
    else
      match load_le16 buffer with
      | none => ⟨.outOfBounds, [], sc⟩
      | some expected_num => ipc_receive_win32_rest sc expected_num t buffer l received_num

/-- The function `ipc_receive` as compiled with `_WIN32` (stream socket with a
two-byte length in front of every message): `t` is what the successive calls
of `recv` do, `buffer` what the array holds on entry.  The function starts
with `l = 0` and `received_num = 0`. -/
def ipc_receive_win32 {U : Type} (sc : ipc_softc U) (t : List RecvEvent) (buffer : List Nat) :
    Outcome U :=
  ipc_receive_win32_header sc t buffer 0 0

/-! ## Frames -/

/-- The little-endian bytes of an unsigned 32-bit value, as the protocol
writes `chunk_index` and `index`. -/
def LE32 (v : Nat) : List Nat :=
  [v % 256, v / 256 % 256, v / 65536 % 256, v / 16777216 % 256]

/-- The little-endian bytes of an unsigned 16-bit value, as the length in
front of a message on the stream socket. -/
def LE16 (v : Nat) : List Nat := [v % 256, v / 256 % 256]

/-- The bytes of a Write message in the layout `ipc_receive` unpacks: the type
byte, the name and its terminating null, `chunk_index` in little-endian order,
the one-byte chunk count and the chunks. -/
def write_frame (name : List Nat) (chunk_index : Nat) (chunks : List Nat) : List Nat :=
  [MESSAGE_WRITE] ++ name ++ [0] ++ LE32 chunk_index ++ [chunks.length % 256] ++ chunks

/-- The bytes of a Read message in the layout `ipc_receive` unpacks: the type
byte, the name and its terminating null, the index in little-endian order. -/
def read_frame (name : List Nat) (index : Nat) : List Nat :=
  [MESSAGE_READ] ++ name ++ [0] ++ LE32 index

/-- A message as it travels on the stream socket: its total length, the two
length bytes included, in front of it. -/
def stream_frame (m : List Nat) : List Nat := LE16 (m.length + 2) ++ m

/-- A sample connection: every handler returns a code of its own built from
its arguments; the user context is a number. -/
def sample_sc : ipc_softc Nat :=
  { socket := 3
    h_go := fun user => 10 + user
    h_write := fun name chunk_index nchunks _ user => 20 + name.length + chunk_index + nchunks + user
    h_read := fun name name_index user => 30 + name.length + name_index + user
    user := 77 }

/-- The bytes of the name `sig_a`. -/
def sig_a : List Nat := [115, 105, 103, 95, 97]

/-- The bytes of the name `sig_b`. -/
def sig_b : List Nat := [115, 105, 103, 95, 98]

/-! ## `ipc_tick` and `ipc_read_reply` -/

/-- The result of one call of a sending function: how it ended, what every
call of `send` was handed (the socket and the bytes, in order of the calls),
and the local array at the end. -/
structure SendOutcome where
  status : Status
  sent : List (Int × List Nat)
  buffer : List Nat
  deriving DecidableEq, Repr

/-- The 32-bit two's-complement bit pattern of an `int`. -/
def int_pattern (x : Int) : Nat := (x % 2 ^ 32).toNat

/-- The `int` an addition yields: the sum, wrapped into the range of a 32-bit
`int` when it leaves it. -/
def wrap_int (x : Int) : Int := (x + 2 ^ 31) % 2 ^ 32 - 2 ^ 31

/-- The function `ipc_tick` as compiled without `_WIN32`; `l` is what the call
of `send` returned. -/
def ipc_tick {U : Type} (sc : ipc_softc U) (l : Int) : SendOutcome :=
  let c := [MESSAGE_TICK]
  let sent := [(sc.socket, c.take 1)]
  if l ≠ 1 then ⟨.returned 0, sent, c⟩
  else ⟨.returned 1, sent, c⟩

/-- The function `ipc_tick` as compiled with `_WIN32`; `l` is what the call of
`send` returned. -/
def ipc_tick_win32 {U : Type} (sc : ipc_softc U) (l : Int) : SendOutcome :=
  let c := [3, 0, MESSAGE_TICK]
  let sent := [(sc.socket, c.take 3)]
  if l ≠ 3 then ⟨.returned 0, sent, c⟩
  else ⟨.returned 1, sent, c⟩

/-- The function `ipc_read_reply` as compiled without `_WIN32`.  `chunks` is
the array the pointer `chunks` points to, `buffer` what the local array holds
on entry, `l` what the call of `send` returned.  An assignment of an `int` to
an element of the `char` array keeps the low eight bits; `memcpy` takes its
count as a `size_t`, so that a negative `nchunks` is a count beyond every
array. -/
def ipc_read_reply {U : Type} (sc : ipc_softc U) (nchunks : Int) (chunks : List Nat)
    (buffer : List Nat) (l : Int) : SendOutcome :=
  let len := wrap_int (nchunks + 2)
  if ¬ len < (MAX_LEN : Int) then ⟨.assertFailed, [], buffer⟩
  else if ¬ nchunks < 256 then ⟨.assertFailed, [], buffer⟩
  else
    let buffer := store buffer 0 [MESSAGE_READ_REPLY]
    let buffer := store buffer 1 [int_pattern nchunks % 256]
    if nchunks < 0 ∨ chunks.length < nchunks.toNat then ⟨.outOfBounds, [], buffer⟩
    else
      let buffer := store buffer 2 (chunks.take nchunks.toNat)
      let sent := [(sc.socket, buffer.take len.toNat)]
      if l ≠ len then ⟨.returned 0, sent, buffer⟩
      else ⟨.returned 1, sent, buffer⟩

/-- The function `ipc_read_reply` as compiled with `_WIN32`; the arguments are
those of `ipc_read_reply`. -/
def ipc_read_reply_win32 {U : Type} (sc : ipc_softc U) (nchunks : Int) (chunks : List Nat)
    (buffer : List Nat) (l : Int) : SendOutcome :=
  let len := wrap_int (nchunks + 4)
  if ¬ len < (MAX_LEN : Int) then ⟨.assertFailed, [], buffer⟩
  else if ¬ nchunks < 256 then ⟨.assertFailed, [], buffer⟩
  else
    let buffer := store buffer 0 [(int_pattern len &&& 0xFF) % 256]
    let buffer := store buffer 1 [((0xFF00 &&& int_pattern len) >>> 8) % 256]
    let buffer := store buffer 2 [MESSAGE_READ_REPLY]
    let buffer := store buffer 3 [int_pattern nchunks % 256]
    if nchunks < 0 ∨ chunks.length < nchunks.toNat then ⟨.outOfBounds, [], buffer⟩
    else
      let buffer := store buffer 4 (chunks.take nchunks.toNat)
      let sent := [(sc.socket, buffer.take len.toNat)]
      if l ≠ len then ⟨.returned 0, sent, buffer⟩
      else ⟨.returned 1, sent, buffer⟩

/-- Modelled from the spec: the companion's decoding of a ReadReply message,
which is not part of `ipc.c`; the spec gives the type byte 4 followed by
`[chunk_count:u8][chunk_data...]`, one byte `chunk_count` followed by exactly
that many bytes. -/
def decode_read_reply : List Nat → Option (List Nat)
  | tag :: chunk_count :: chunk_data =>
    if tag = MESSAGE_READ_REPLY ∧ chunk_data.length = chunk_count then some chunk_data
    else none
  | _ => none

/-- Modelled from the spec: the companion's removal of the stream framing,
which is not part of `ipc.c`; the spec gives bytes 0-1 as the total frame
length, little-endian, these two bytes included, and the message behind
them. -/
def decode_stream_frame : List Nat → Option (List Nat)
  | b0 :: b1 :: m => if b0 + 256 * b1 = m.length + 2 then some m else none
  | _ => none

/-- The bytes a run of the transport delivers before its first failure or
shutdown (a read of no bytes), in order. -/
def delivered : List RecvEvent → List Nat
  | [] => []
  | .failure :: _ => []
  | .bytes [] :: _ => []
  | .bytes (b :: bs) :: rest => (b :: bs) ++ delivered rest

/-- The body that the two reading loops of `ipc_receive` under `_WIN32` share
word for word, repeated for as long as it does not return, from the values `l`
and `received_num` on: `recv` is asked for `MAX_LEN - received_num` bytes; a
failure ends the run with 0, a read of no bytes with 2, a store beyond the
array with `outOfBounds`, an accumulated length of `MAX_LEN` with 0; when the
transport has nothing left the run waits. -/
def win32_reading : List RecvEvent → Nat → Nat → Status
  | [], _, _ => .blocked
  | .failure :: _, _, _ => .returned 0
  | .bytes bs :: rest, l, received_num =>
    let got := bs.take (MAX_LEN - received_num)
    if got.length = 0 then .returned 2
    else if l + got.length > MAX_LEN then .outOfBounds
    else if got.length ≥ MAX_LEN ∨ l + got.length ≥ MAX_LEN then .returned 0
    else win32_reading rest (l + got.length) got.length

/-- The name the unpacking code reads in a message ends within the message: a
Write or Read message holds a null byte behind its type byte.  Messages of the
other types hold no name. -/
def name_terminated : List Nat → Prop
  | [] => True
  | tag :: payload => (tag = MESSAGE_WRITE ∨ tag = MESSAGE_READ) → 0 ∈ payload

/-! ## Lists as memory -/

theorem getElem?_append_add (pre xs : List Nat) (k : Nat) :
    (pre ++ xs)[pre.length + k]? = xs[k]? := by
  induction pre with
  | nil => simp
  | cons a pre ih =>
    have : (a :: pre).length + k = (pre.length + k) + 1 := by simp; omega
    rw [this]; simp [ih]

theorem drop_append_add (pre xs : List Nat) (k : Nat) :
    (pre ++ xs).drop (pre.length + k) = xs.drop k := by
  induction pre with
  | nil => simp
  | cons a pre ih =>
    have : (a :: pre).length + k = (pre.length + k) + 1 := by simp; omega
    rw [this]; simp [ih]

theorem load_le32_append_add (pre xs : List Nat) (k : Nat) :
    load_le32 (pre ++ xs) (pre.length + k) = load_le32 xs k := by
  unfold load_le32
  rw [getElem?_append_add, Nat.add_assoc, getElem?_append_add, Nat.add_assoc,
    getElem?_append_add, Nat.add_assoc, getElem?_append_add]

theorem strlen_append (p s : List Nat) (h : 0 ∉ p) :
    strlen (p ++ s) = (strlen s).map (· + p.length) := by
  induction p with
  | nil => simp
  | cons a p ih =>
    have ha : a ≠ 0 := fun e => h (by simp [e])
    have hp : 0 ∉ p := fun e => h (by simp [e])
    have e : strlen (a :: (p ++ s)) = (strlen (p ++ s)).map (· + 1) := by
      simp [strlen, ha]
    rw [List.cons_append, e, ih hp]
    cases strlen s <;> simp [Nat.add_assoc]

theorem strlen_terminated (name rest : List Nat) (h : 0 ∉ name) :
    strlen (name ++ 0 :: rest) = some name.length := by
  rw [strlen_append _ _ h]; simp [strlen]

theorem strlen_none (p : List Nat) (h : 0 ∉ p) : strlen p = none := by
  have := strlen_append p [] h
  simpa [strlen] using this

theorem shl32_byte (b k : Nat) (hb : b < 256) (hk : k ≤ 24) : shl32 b k = 2 ^ k * b := by
  unfold shl32
  rw [Nat.shiftLeft_eq, Nat.mul_comm]
  apply Nat.mod_eq_of_lt
  calc 2 ^ k * b < 2 ^ k * 256 := Nat.mul_lt_mul_of_pos_left hb (Nat.pow_pos (by decide))
    _ ≤ 2 ^ 24 * 256 := Nat.mul_le_mul_right _ (Nat.pow_le_pow_right (by decide) hk)
    _ = 2 ^ 32 := by norm_num

/-- The four-byte expression of `ipc_receive` is the little-endian value of
the bytes. -/
theorem le32_value (b0 b1 b2 b3 : Nat) (h0 : b0 < 256) (h1 : b1 < 256) (h2 : b2 < 256)
    (h3 : b3 < 256) :
    b0 ||| shl32 b1 8 ||| shl32 b2 16 ||| shl32 b3 24
      = b0 + 256 * b1 + 65536 * b2 + 16777216 * b3 := by
  rw [shl32_byte b1 8 h1 (by decide), shl32_byte b2 16 h2 (by decide),
    shl32_byte b3 24 h3 (by decide)]
  have e1 : b0 ||| 2 ^ 8 * b1 = 2 ^ 8 * b1 + b0 := by
    rw [Nat.or_comm]; exact (Nat.mul_add_lt_is_or (by simpa using h0) b1).symm
  have e2 : (2 ^ 8 * b1 + b0) ||| 2 ^ 16 * b2 = 2 ^ 16 * b2 + (2 ^ 8 * b1 + b0) := by
    rw [Nat.or_comm]; exact (Nat.mul_add_lt_is_or (by norm_num; omega) b2).symm
  have e3 : (2 ^ 16 * b2 + (2 ^ 8 * b1 + b0)) ||| 2 ^ 24 * b3
      = 2 ^ 24 * b3 + (2 ^ 16 * b2 + (2 ^ 8 * b1 + b0)) := by
    rw [Nat.or_comm]; exact (Nat.mul_add_lt_is_or (by norm_num; omega) b3).symm
  rw [e1, e2, e3]; norm_num; omega

theorem load_le32_LE32 (v : Nat) (rest : List Nat) (hv : v < 2 ^ 32) :
    load_le32 (LE32 v ++ rest) 0 = some v := by
  simp only [load_le32, LE32, List.cons_append, List.nil_append, List.getElem?_cons_zero,
    List.getElem?_cons_succ, Nat.zero_add]
  rw [le32_value _ _ _ _ (Nat.mod_lt _ (by decide)) (Nat.mod_lt _ (by decide))
    (Nat.mod_lt _ (by decide)) (Nat.mod_lt _ (by decide))]
  congr 1
  norm_num at hv
  omega

/-! ## The unpacking code on terminated names -/

theorem switch_tag (pre body : List Nat) (tag : Nat) :
    (pre ++ tag :: body)[pre.length]? = some tag := by
  have := getElem?_append_add pre (tag :: body) 0
  simpa using this

theorem switch_write {U : Type} (sc : ipc_softc U) (pre name rest : List Nat) (l : Int)
    (h : 0 ∉ name) :
    ipc_receive_switch sc (pre ++ MESSAGE_WRITE :: (name ++ 0 :: rest)) l pre.length =
      if ((pre.length + (name.length + 2) : Nat) : Int) + 4 < l then
        match load_le32 rest 0 with
        | none => ⟨.outOfBounds, [], sc⟩
        | some chunk_index =>
          match (rest[4]? : Option Nat) with
          | none => ⟨.outOfBounds, [], sc⟩
          | some nchunks =>
            if ((pre.length + (name.length + 2) + 5 : Nat) : Int) + (nchunks : Int) = l then
              ⟨.returned (sc.h_write name chunk_index nchunks ((rest.drop 5).take nchunks)
                  sc.user),
                [.write name chunk_index nchunks ((rest.drop 5).take nchunks) sc.user], sc⟩
            else ⟨.assertFailed, [], sc⟩
      else ⟨.assertFailed, [], sc⟩ := by
  have htag := switch_tag pre (name ++ 0 :: rest) MESSAGE_WRITE
  have hdrop : (pre ++ MESSAGE_WRITE :: (name ++ 0 :: rest)).drop (pre.length + 1)
      = name ++ 0 :: rest := by
    rw [drop_append_add]; rfl
  have hbuf : pre ++ MESSAGE_WRITE :: (name ++ 0 :: rest)
      = (pre ++ MESSAGE_WRITE :: (name ++ [0])) ++ rest := by simp
  have hlen : (pre ++ MESSAGE_WRITE :: (name ++ [0])).length = pre.length + (name.length + 2) := by
    simp
  have hi : pre.length + 1 + (name.length + 1) = pre.length + (name.length + 2) := by omega
  have hle : load_le32 (pre ++ MESSAGE_WRITE :: (name ++ 0 :: rest))
      (pre.length + (name.length + 2)) = load_le32 rest 0 := by
    rw [hbuf, ← hlen]; exact load_le32_append_add _ rest 0
  have hk : (pre ++ MESSAGE_WRITE :: (name ++ 0 :: rest))[pre.length + (name.length + 2) + 4]?
      = rest[4]? := by
    rw [hbuf, ← hlen]; exact getElem?_append_add _ rest 4
  have hch : (pre ++ MESSAGE_WRITE :: (name ++ 0 :: rest)).drop
      (pre.length + (name.length + 2) + 4 + 1) = rest.drop 5 := by
    rw [hbuf, ← hlen, Nat.add_assoc]; exact drop_append_add _ rest 5
  have hname : (name ++ 0 :: rest).take name.length = name := by simp
  have hg : ¬ (MESSAGE_WRITE = MESSAGE_GO) := by decide
  unfold ipc_receive_switch
  simp only [htag, hdrop, strlen_terminated name rest h, hname, hi, hle, hk, hch, hg, if_false,
    if_true]

theorem switch_read {U : Type} (sc : ipc_softc U) (pre name rest : List Nat) (l : Int)
    (h : 0 ∉ name) :
    ipc_receive_switch sc (pre ++ MESSAGE_READ :: (name ++ 0 :: rest)) l pre.length =
      if ((pre.length + (name.length + 2) : Nat) : Int) + 4 = l then
        match load_le32 rest 0 with
        | none => ⟨.outOfBounds, [], sc⟩
        | some name_index =>
          ⟨.returned (sc.h_read name name_index sc.user), [.read name name_index sc.user], sc⟩
      else ⟨.assertFailed, [], sc⟩ := by
  have htag := switch_tag pre (name ++ 0 :: rest) MESSAGE_READ
  have hdrop : (pre ++ MESSAGE_READ :: (name ++ 0 :: rest)).drop (pre.length + 1)
      = name ++ 0 :: rest := by
    rw [drop_append_add]; rfl
  have hbuf : pre ++ MESSAGE_READ :: (name ++ 0 :: rest)
      = (pre ++ MESSAGE_READ :: (name ++ [0])) ++ rest := by simp
  have hlen : (pre ++ MESSAGE_READ :: (name ++ [0])).length = pre.length + (name.length + 2) := by
    simp
  have hi : pre.length + 1 + (name.length + 1) = pre.length + (name.length + 2) := by omega
  have hle : load_le32 (pre ++ MESSAGE_READ :: (name ++ 0 :: rest))
      (pre.length + (name.length + 2)) = load_le32 rest 0 := by
    rw [hbuf, ← hlen]; exact load_le32_append_add _ rest 0
  have hname : (name ++ 0 :: rest).take name.length = name := by simp
  have hg : ¬ (MESSAGE_READ = MESSAGE_GO) := by decide
  have hw : ¬ (MESSAGE_READ = MESSAGE_WRITE) := by decide
  unfold ipc_receive_switch
  simp only [htag, hdrop, strlen_terminated name rest h, hname, hi, hle, hg, hw, if_false,
    if_true]

/-- A Write or Read message in which no null byte follows the type byte:
`strlen` runs on into the bytes behind it.  When one of them is null the
assertion on the cursor fails, when none is the scan leaves the array. -/
theorem switch_unterminated {U : Type} (sc : ipc_softc U) (pre payload stale : List Nat)
    (tag : Nat) (l : Int) (htag : tag = MESSAGE_WRITE ∨ tag = MESSAGE_READ)
    (h : 0 ∉ payload) (hl : l ≤ ((pre.length + 1 + payload.length : Nat) : Int)) :
    ipc_receive_switch sc (pre ++ tag :: (payload ++ stale)) l pre.length =
      ⟨if (strlen stale).isSome then .assertFailed else .outOfBounds, [], sc⟩ := by
  have ht := switch_tag pre (payload ++ stale) tag
  have hdrop : (pre ++ tag :: (payload ++ stale)).drop (pre.length + 1) = payload ++ stale := by
    rw [drop_append_add]; rfl
  have hs := strlen_append payload stale h
  unfold ipc_receive_switch
  rcases htag with rfl | rfl
  · have hg : ¬ (MESSAGE_WRITE = MESSAGE_GO) := by decide
    simp only [ht, hdrop, hs, hg, if_false, if_true]
    cases hst : strlen stale with
    | none => simp
    | some m =>
      simp only [Option.map_some', Option.isSome_some, if_true]
      rw [if_neg]
      push_cast at hl ⊢; omega
  · have hg : ¬ (MESSAGE_READ = MESSAGE_GO) := by decide
    have hw : ¬ (MESSAGE_READ = MESSAGE_WRITE) := by decide
    simp only [ht, hdrop, hs, hg, hw, if_false, if_true]
    cases hst : strlen stale with
    | none => simp
    | some m =>
      simp only [Option.map_some', Option.isSome_some, if_true]
      rw [if_neg]
      push_cast at hl ⊢; omega

theorem switch_go {U : Type} (sc : ipc_softc U) (pre rest : List Nat) (l : Int) :
    ipc_receive_switch sc (pre ++ MESSAGE_GO :: rest) l pre.length =
      if l - ((pre.length + 1 : Nat) : Int) = 0 then
        ⟨.returned (sc.h_go sc.user), [.go sc.user], sc⟩
      else ⟨.assertFailed, [], sc⟩ := by
  unfold ipc_receive_switch
  simp only [switch_tag, if_true]

theorem switch_default {U : Type} (sc : ipc_softc U) (pre rest : List Nat) (tag : Nat) (l : Int)
    (h1 : tag ≠ MESSAGE_GO) (h2 : tag ≠ MESSAGE_WRITE) (h3 : tag ≠ MESSAGE_READ) :
    ipc_receive_switch sc (pre ++ tag :: rest) l pre.length = ⟨.returned 0, [], sc⟩ := by
  unfold ipc_receive_switch
  simp only [switch_tag, h1, h2, h3, if_false]

theorem switch_not_blocked {U : Type} (sc : ipc_softc U) (buffer : List Nat) (l : Int)
    (i : Nat) : (ipc_receive_switch sc buffer l i).status ≠ .blocked := by
  unfold ipc_receive_switch
  dsimp only
  repeat' split
  all_goals simp

theorem switch_sc {U : Type} (sc : ipc_softc U) (buffer : List Nat) (l : Int)
    (i : Nat) : (ipc_receive_switch sc buffer l i).sc = sc := by
  unfold ipc_receive_switch
  dsimp only
  repeat' split
  all_goals rfl

theorem load_le16_LE16 (v : Nat) (rest : List Nat) (hv : v < 65536) :
    load_le16 (LE16 v ++ rest) = some v := by
  simp only [load_le16, LE16, List.cons_append, List.nil_append, List.getElem?_cons_zero,
    List.getElem?_cons_succ]
  rw [shl32_byte _ 8 (Nat.mod_lt _ (by decide)) (by decide),
    ← Nat.mul_add_lt_is_or (by norm_num; exact Nat.mod_lt _ (by decide))]
  congr 1
  omega

/-- On the stream socket, when the first `recv` delivers a whole message with
its length in front, no second `recv` is made and the unpacking code runs on
the array with the cursor behind the length. -/
theorem win32_single_read {U : Type} (sc : ipc_softc U) (m buffer : List Nat)
    (rest : List RecvEvent) (hm : m.length + 2 < MAX_LEN) :
    ipc_receive_win32 sc (.bytes (LE16 (m.length + 2) ++ m) :: rest) buffer =
      ipc_receive_switch sc (LE16 (m.length + 2) ++ (m ++ buffer.drop (m.length + 2)))
        ((m.length + 2 : Nat) : Int) 2 := by
  have hM : MAX_LEN = 2048 := rfl
  have hlen : (LE16 (m.length + 2) ++ m).length = m.length + 2 := by simp [LE16]
  have htake : (LE16 (m.length + 2) ++ m).take (MAX_LEN - 0) = LE16 (m.length + 2) ++ m := by
    apply List.take_of_length_le; rw [hlen]; omega
  have hstore : store buffer 0 (LE16 (m.length + 2) ++ m)
      = LE16 (m.length + 2) ++ (m ++ buffer.drop (m.length + 2)) := by
    simp [store, hlen]
  unfold ipc_receive_win32
  rw [ipc_receive_win32_header.eq_def]
  simp only [htake, hlen, hstore]
  rw [if_pos (by decide), if_neg (by omega), if_neg (by omega), if_neg (by omega)]
  rw [ipc_receive_win32_header.eq_def]
  simp only []
  rw [if_neg (by omega), load_le16_LE16 _ _ (by omega)]
  simp only []
  rw [ipc_receive_win32_rest.eq_def]
  simp only []
  rw [if_neg (by omega), Nat.zero_add]

/-! ## A zero-byte read on the stream socket -/

theorem win32_rest_shutdown {U : Type} (sc : ipc_softc U) (expected_num : Nat)
    (rest : List RecvEvent) :
    ∀ (pre : List RecvEvent) (buffer : List Nat) (l received_num : Nat),
      (ipc_receive_win32_rest sc expected_num pre buffer l received_num).status = .blocked →
      ipc_receive_win32_rest sc expected_num (pre ++ .bytes [] :: rest) buffer l received_num
        = ⟨.returned 2, [], sc⟩ := by
  intro pre
  induction pre with
  | nil =>
    intro buffer l received_num h
    rw [ipc_receive_win32_rest.eq_def] at h ⊢
    by_cases hl : l < expected_num
    · simp [hl]
    · simp only [hl, if_false] at h
      exact absurd h (switch_not_blocked sc buffer _ 2)
  | cons ev pre ih =>
    intro buffer l received_num h
    rw [ipc_receive_win32_rest.eq_def] at h ⊢
    by_cases hl : l < expected_num
    · simp only [hl, if_true, List.cons_append] at h ⊢
      cases ev with
      | failure => simp at h
      | bytes bs =>
        simp only [] at h ⊢
        split
        · rfl
        · rename_i h0
          rw [if_neg h0] at h
          split
          · rename_i h1; rw [if_pos h1] at h; simp at h
          · rename_i h1
            rw [if_neg h1] at h
            split
            · rename_i h2; rw [if_pos h2] at h; simp at h
            · rename_i h2
              rw [if_neg h2] at h
              exact ih _ _ _ h
    · simp only [hl, if_false] at h
      exact absurd h (switch_not_blocked sc buffer _ 2)

theorem win32_header_shutdown {U : Type} (sc : ipc_softc U) (rest : List RecvEvent) :
    ∀ (pre : List RecvEvent) (buffer : List Nat) (l received_num : Nat),
      (ipc_receive_win32_header sc pre buffer l received_num).status = .blocked →
      ipc_receive_win32_header sc (pre ++ .bytes [] :: rest) buffer l received_num
        = ⟨.returned 2, [], sc⟩ := by
  intro pre
  induction pre with
  | nil =>
    intro buffer l received_num h
    rw [ipc_receive_win32_header.eq_def] at h ⊢
    by_cases hl : received_num < 2
    · simp [hl]
    · simp only [hl, if_false] at h ⊢
      cases hle : load_le16 buffer with
      | none => rw [hle] at h; simp at h
      | some e =>
        rw [hle] at h
        exact win32_rest_shutdown sc e rest [] buffer l received_num h
  | cons ev pre ih =>
    intro buffer l received_num h
    rw [ipc_receive_win32_header.eq_def] at h ⊢
    by_cases hl : received_num < 2
    · simp only [hl, if_true, List.cons_append] at h ⊢
      cases ev with
      | failure => simp at h
      | bytes bs =>
        simp only [] at h ⊢
        split
        · rfl
        · rename_i h0
          rw [if_neg h0] at h
          split
          · rename_i h1; rw [if_pos h1] at h; simp at h
          · rename_i h1
            rw [if_neg h1] at h
            split
            · rename_i h2; rw [if_pos h2] at h; simp at h
            · rename_i h2
              rw [if_neg h2] at h
              exact ih _ _ _ h
    · simp only [hl, if_false] at h ⊢
      cases hle : load_le16 buffer with
      | none => rw [hle] at h; simp at h
      | some e =>
        rw [hle] at h
        exact win32_rest_shutdown sc e rest (ev :: pre) buffer l received_num h

/-! ## The message-preserving socket: from `ipc_receive` to the unpacking code -/

theorem ipc_receive_of_frame {U : Type} (sc : ipc_softc U) (frame stale : List Nat)
    (h0 : 0 < frame.length) (h1 : frame.length < MAX_LEN) :
    ipc_receive sc (frame.length : Nat) (frame ++ stale)
      = ipc_receive_switch sc (([] : List Nat) ++ (frame ++ stale)) (frame.length : Nat)
          ([] : List Nat).length := by
  unfold ipc_receive
  have hM : MAX_LEN = 2048 := rfl
  rw [if_neg (by omega), if_neg (by omega)]
  rfl

theorem write_frame_length (name chunks : List Nat) (chunk_index : Nat) :
    (write_frame name chunk_index chunks).length = name.length + chunks.length + 7 := by
  simp [write_frame, LE32]; omega

theorem read_frame_length (name : List Nat) (index : Nat) :
    (read_frame name index).length = name.length + 6 := by
  simp [read_frame, LE32]

/-! ## Well-formed frames -/

/-- C1: on the message-preserving socket, a Write frame built from a name
without a null byte, a `chunk_index` below `2 ^ 32` and at most 255 chunk bytes,
shorter than `MAX_LEN`, makes `ipc_receive` call the write handler once, with
that name, that index, the number of chunk bytes, the chunk bytes and the user
context, and return what the handler returned, whatever the array holds behind
the frame. -/
theorem ipc_receive_write_frame {U : Type} (sc : ipc_softc U) (name chunk_data stale : List Nat)
    (chunk_index : Nat) (hname : 0 ∉ name) (hidx : chunk_index < 2 ^ 32)
    (hk : chunk_data.length ≤ 255)
    (hlen : (write_frame name chunk_index chunk_data).length < MAX_LEN) :
    ipc_receive sc ((write_frame name chunk_index chunk_data).length : Nat)
        (write_frame name chunk_index chunk_data ++ stale)
      = ⟨.returned (sc.h_write name chunk_index chunk_data.length chunk_data sc.user),
          [.write name chunk_index chunk_data.length chunk_data sc.user], sc⟩ := by
  have hfl := write_frame_length name chunk_data chunk_index
  rw [ipc_receive_of_frame sc _ stale (by omega) hlen]
  have hbuf : write_frame name chunk_index chunk_data ++ stale
      = MESSAGE_WRITE :: (name ++ 0 :: (LE32 chunk_index
          ++ (chunk_data.length :: (chunk_data ++ stale)))) := by
    simp [write_frame, Nat.mod_eq_of_lt (show chunk_data.length < 256 by omega)]
  rw [hbuf, switch_write sc [] name _ _ hname, load_le32_LE32 _ _ hidx, hfl]
  have h4 : (LE32 chunk_index ++ (chunk_data.length :: (chunk_data ++ stale)))[4]?
      = some chunk_data.length := by simp [LE32]
  have h5 : (LE32 chunk_index ++ (chunk_data.length :: (chunk_data ++ stale))).drop 5
      = chunk_data ++ stale := by simp [LE32]
  simp only [h4, h5, List.length_nil, List.take_left']
  rw [if_pos (by push_cast; omega), if_pos (by push_cast; omega)]

/-- Witness of C1: the name `sig_a`, a `chunk_index` with the top bit set, the
two chunk bytes 1 and 2, in an array otherwise filled with `0xAA`. -/
theorem ipc_receive_write_frame_witness :
    (0 ∉ sig_a ∧ 2147483651 < 2 ^ 32 ∧ [1, 2].length ≤ 255
      ∧ (write_frame sig_a 2147483651 [1, 2]).length < MAX_LEN)
    ∧ ipc_receive sample_sc ((write_frame sig_a 2147483651 [1, 2]).length : Nat)
        (write_frame sig_a 2147483651 [1, 2] ++ List.replicate 2034 170)
      = ⟨.returned (sample_sc.h_write sig_a 2147483651 [1, 2].length [1, 2] sample_sc.user),
          [.write sig_a 2147483651 [1, 2].length [1, 2] sample_sc.user], sample_sc⟩ :=
  ⟨⟨by decide, by decide, by decide, by decide⟩,
    ipc_receive_write_frame sample_sc sig_a [1, 2] (List.replicate 2034 170) 2147483651
      (by decide) (by decide) (by decide) (by decide)⟩

/-- C2: on the message-preserving socket, a Read frame built from a name
without a null byte and an index below `2 ^ 32`, shorter than `MAX_LEN`, makes
`ipc_receive` call the read handler once, with that name, that index (the
little-endian value of the four bytes behind the terminator) and the user
context, and return what the handler returned. -/
theorem ipc_receive_read_frame {U : Type} (sc : ipc_softc U) (name stale : List Nat)
    (index : Nat) (hname : 0 ∉ name) (hidx : index < 2 ^ 32)
    (hlen : (read_frame name index).length < MAX_LEN) :
    ipc_receive sc ((read_frame name index).length : Nat) (read_frame name index ++ stale)
      = ⟨.returned (sc.h_read name index sc.user), [.read name index sc.user], sc⟩ := by
  have hfl := read_frame_length name index
  rw [ipc_receive_of_frame sc _ stale (by omega) hlen]
  have hbuf : read_frame name index ++ stale
      = MESSAGE_READ :: (name ++ 0 :: (LE32 index ++ stale)) := by
    simp [read_frame]
  rw [hbuf, switch_read sc [] name _ _ hname, load_le32_LE32 _ _ hidx, hfl]
  simp only [List.length_nil]
  rw [if_pos (by push_cast; omega)]

/-- Witness of C2: the name `sig_b` and the index 7. -/
theorem ipc_receive_read_frame_witness :
    (0 ∉ sig_b ∧ 7 < 2 ^ 32 ∧ (read_frame sig_b 7).length < MAX_LEN)
    ∧ ipc_receive sample_sc ((read_frame sig_b 7).length : Nat)
        (read_frame sig_b 7 ++ List.replicate 2037 170)
      = ⟨.returned (sample_sc.h_read sig_b 7 sample_sc.user),
          [.read sig_b 7 sample_sc.user], sample_sc⟩ :=
  ⟨⟨by decide, by decide, by decide⟩,
    ipc_receive_read_frame sample_sc sig_b (List.replicate 2037 170) 7
      (by decide) (by decide) (by decide)⟩

/-- C3: a Go frame without payload makes `ipc_receive` call the advance
handler once with the user context, call no other handler, and return the
handler's result unchanged, whatever that integer is: on the
message-preserving socket when `recv` delivers the single byte 1, on the
stream socket when the first `recv` delivers that byte behind its length. -/
theorem ipc_receive_go_frame {U : Type} (sc : ipc_softc U) (stale buffer : List Nat)
    (rest : List RecvEvent) :
    ipc_receive sc 1 (MESSAGE_GO :: stale)
        = ⟨.returned (sc.h_go sc.user), [.go sc.user], sc⟩
    ∧ ipc_receive_win32 sc (.bytes (stream_frame [MESSAGE_GO]) :: rest) buffer
        = ⟨.returned (sc.h_go sc.user), [.go sc.user], sc⟩ := by
  constructor
  · have := ipc_receive_of_frame sc [MESSAGE_GO] stale (by decide) (by decide)
    simp only [List.length_singleton, List.singleton_append, Nat.cast_one] at this
    rw [this, switch_go]
    simp
  · have := win32_single_read sc [MESSAGE_GO] buffer rest (by decide)
    unfold stream_frame
    rw [this]
    have := switch_go sc (LE16 ([MESSAGE_GO].length + 2)) (buffer.drop 3) (3 : Nat)
    simp only [List.length_singleton, LE16, List.length_cons, List.length_nil] at this ⊢
    simp only [List.cons_append, List.nil_append] at this ⊢
    rw [this]
    simp

/-! ## Shutdown and bad lengths -/

/-- C4: when `recv` returns zero bytes `ipc_receive` returns 2 and calls no
handler: on the message-preserving socket whatever the array holds, and on the
stream socket at every point of the accumulation, that is after every run of
the transport that left the function waiting for more bytes. -/
theorem ipc_receive_zero_read {U : Type} (sc : ipc_softc U) (buffer : List Nat)
    (pre rest : List RecvEvent) :
    ipc_receive sc 0 buffer = ⟨.returned 2, [], sc⟩
    ∧ ((ipc_receive_win32 sc pre buffer).status = .blocked →
        ipc_receive_win32 sc (pre ++ .bytes [] :: rest) buffer = ⟨.returned 2, [], sc⟩) := by
  constructor
  · simp [ipc_receive]
  · intro h
    exact win32_header_shutdown sc rest pre buffer 0 0 h

/-- A run of the stream transport that leaves `ipc_receive` waiting: the length
bytes of a 13-byte frame and its type byte arrive in two reads, then nothing. -/
theorem win32_waiting {U : Type} (sc : ipc_softc U) (buffer : List Nat) :
    (ipc_receive_win32 sc [.bytes [13], .bytes [0, 3]] buffer).status = .blocked := by
  simp [ipc_receive_win32, ipc_receive_win32_header, ipc_receive_win32_rest, store, load_le16,
    shl32, MAX_LEN]

/-- Witness of C4: the peer shuts down after the two length bytes and the
first byte of a Read message have arrived in two reads. -/
theorem ipc_receive_zero_read_witness :
    (ipc_receive_win32 sample_sc [.bytes [13], .bytes [0, 3]] (List.replicate 2048 170)).status
        = .blocked
    ∧ ipc_receive sample_sc 0 (List.replicate 2048 170) = ⟨.returned 2, [], sample_sc⟩
    ∧ ipc_receive_win32 sample_sc ([.bytes [13], .bytes [0, 3]] ++ .bytes [] :: [.bytes [1]])
        (List.replicate 2048 170) = ⟨.returned 2, [], sample_sc⟩ :=
  have h : (ipc_receive_win32 sample_sc [.bytes [13], .bytes [0, 3]]
      (List.replicate 2048 170)).status = .blocked := win32_waiting sample_sc _
  ⟨h, (ipc_receive_zero_read sample_sc (List.replicate 2048 170) [.bytes [13], .bytes [0, 3]]
      [.bytes [1]]).1,
    (ipc_receive_zero_read sample_sc (List.replicate 2048 170) [.bytes [13], .bytes [0, 3]]
      [.bytes [1]]).2 h⟩

/-- C5: on the message-preserving socket, when `recv` returns a negative
length or a length of `MAX_LEN` or more, `ipc_receive` returns 0 and calls no
handler, whatever the array holds; a handler is called only for a length from
1 to 2047. -/
theorem ipc_receive_bad_length {U : Type} (sc : ipc_softc U) (l : Int) (buffer : List Nat)
    (h : l < 0 ∨ l ≥ (MAX_LEN : Int)) :
    ipc_receive sc l buffer = ⟨.returned 0, [], sc⟩
    ∧ ∀ l2 : Int, (ipc_receive sc l2 buffer).calls ≠ [] → 1 ≤ l2 ∧ l2 ≤ 2047 := by
  have hM : (MAX_LEN : Int) = 2048 := rfl
  constructor
  · unfold ipc_receive
    rw [if_neg (by omega), if_pos h]
  · intro l2 hc
    unfold ipc_receive at hc
    by_cases h0 : l2 = 0
    · simp [h0] at hc
    · rw [if_neg h0] at hc
      by_cases h1 : l2 < 0 ∨ l2 ≥ (MAX_LEN : Int)
      · simp [h1] at hc
      · omega

/-- A length of 1 with the Go type byte in front gives a handler call. -/
theorem go_frame_calls {U : Type} (sc : ipc_softc U) (stale : List Nat) :
    (ipc_receive sc 1 (MESSAGE_GO :: stale)).calls ≠ [] := by
  simp [ipc_receive, ipc_receive_switch, MAX_LEN]

/-- Witness of C5: a length of 2048 reported for an array that starts with a
Go frame. -/
theorem ipc_receive_bad_length_witness :
    ((2048 : Int) < 0 ∨ (2048 : Int) ≥ (MAX_LEN : Int))
    ∧ ipc_receive sample_sc 2048 (MESSAGE_GO :: List.replicate 2047 170)
        = ⟨.returned 0, [], sample_sc⟩
    ∧ (ipc_receive sample_sc 1 (MESSAGE_GO :: List.replicate 2047 170)).calls ≠ [] :=
  ⟨by decide,
    (ipc_receive_bad_length sample_sc 2048 (MESSAGE_GO :: List.replicate 2047 170)
      (by decide)).1,
    go_frame_calls sample_sc _⟩

/-! ## One message on either socket -/

theorem ipc_receive_too_long {U : Type} (sc : ipc_softc U) (frame stale : List Nat)
    (h : ¬ frame.length < MAX_LEN) :
    ipc_receive sc (frame.length : Nat) (frame ++ stale) = ⟨.returned 0, [], sc⟩ := by
  have hM : MAX_LEN = 2048 := rfl
  unfold ipc_receive
  rw [if_neg (by omega), if_pos (by omega)]

/-- When the unpacking code gives the outcome `o` on the message `m` wherever
the message starts in the array and whatever follows it, `ipc_receive` gives
`o` on the message-preserving socket when `recv` delivers `m`, and on the
stream socket when the first `recv` delivers `m` behind its length. -/
theorem ipc_receive_of_switch {U : Type} (sc : ipc_softc U) (m : List Nat) (o : Outcome U)
    (hsw : ∀ pre stale : List Nat,
      ipc_receive_switch sc (pre ++ (m ++ stale)) ((pre.length + m.length : Nat) : Int) pre.length
        = o)
    (h0 : 0 < m.length) :
    (m.length < MAX_LEN → ∀ stale : List Nat, ipc_receive sc (m.length : Nat) (m ++ stale) = o)
    ∧ (m.length + 2 < MAX_LEN → ∀ (rest : List RecvEvent) (buffer : List Nat),
        ipc_receive_win32 sc (.bytes (stream_frame m) :: rest) buffer = o) := by
  constructor
  · intro h1 stale
    rw [ipc_receive_of_frame sc m stale h0 h1]
    have := hsw [] stale
    simpa using this
  · intro h1 rest buffer
    unfold stream_frame
    rw [win32_single_read sc m buffer rest h1]
    have := hsw (LE16 (m.length + 2)) (buffer.drop (m.length + 2))
    have e : (LE16 (m.length + 2)).length = 2 := rfl
    rw [e] at this
    rw [← this]
    congr 1
    push_cast; omega

/-! ## Malformed frames -/

theorem switch_write_malformed {U : Type} (sc : ipc_softc U) (pre name tail stale : List Nat)
    (hname : 0 ∉ name)
    (h : tail.length < 5 ∨ ∃ b0 b1 b2 b3 k data,
      tail = b0 :: b1 :: b2 :: b3 :: k :: data ∧ k ≠ data.length) :
    ipc_receive_switch sc (pre ++ (MESSAGE_WRITE :: (name ++ 0 :: tail) ++ stale))
        ((pre.length + (MESSAGE_WRITE :: (name ++ 0 :: tail)).length : Nat) : Int) pre.length
      = ⟨.assertFailed, [], sc⟩ := by
  have hbuf : pre ++ (MESSAGE_WRITE :: (name ++ 0 :: tail) ++ stale)
      = pre ++ MESSAGE_WRITE :: (name ++ 0 :: (tail ++ stale)) := by simp
  rw [hbuf, switch_write sc pre name _ _ hname]
  rcases h with h | ⟨b0, b1, b2, b3, k, data, rfl, hk⟩
  · rw [if_neg]
    simp only [List.length_cons, List.length_append]
    push_cast; omega
  · rw [if_pos]
    · simp only [load_le32, List.cons_append, List.getElem?_cons_zero, List.getElem?_cons_succ,
        Nat.zero_add]
      rw [if_neg]
      simp only [List.length_cons, List.length_append]
      push_cast; omega
    · simp only [List.length_cons, List.length_append]
      push_cast; omega

theorem switch_read_malformed {U : Type} (sc : ipc_softc U) (pre name tail stale : List Nat)
    (hname : 0 ∉ name) (h : tail.length ≠ 4) :
    ipc_receive_switch sc (pre ++ (MESSAGE_READ :: (name ++ 0 :: tail) ++ stale))
        ((pre.length + (MESSAGE_READ :: (name ++ 0 :: tail)).length : Nat) : Int) pre.length
      = ⟨.assertFailed, [], sc⟩ := by
  have hbuf : pre ++ (MESSAGE_READ :: (name ++ 0 :: tail) ++ stale)
      = pre ++ MESSAGE_READ :: (name ++ 0 :: (tail ++ stale)) := by simp
  rw [hbuf, switch_read sc pre name _ _ hname, if_neg]
  simp only [List.length_cons, List.length_append]
  push_cast; omega

theorem switch_go_payload {U : Type} (sc : ipc_softc U) (pre payload stale : List Nat)
    (h : payload ≠ []) :
    ipc_receive_switch sc (pre ++ (MESSAGE_GO :: payload ++ stale))
        ((pre.length + (MESSAGE_GO :: payload).length : Nat) : Int) pre.length
      = ⟨.assertFailed, [], sc⟩ := by
  have hp : 0 < payload.length := List.length_pos.mpr h
  have hbuf : pre ++ (MESSAGE_GO :: payload ++ stale)
      = pre ++ MESSAGE_GO :: (payload ++ stale) := by simp
  rw [hbuf, switch_go, if_neg]
  simp only [List.length_cons]
  push_cast; omega

theorem switch_unknown {U : Type} (sc : ipc_softc U) (pre payload stale : List Nat) (tag : Nat)
    (l : Int) (h : 5 ≤ tag) :
    ipc_receive_switch sc (pre ++ (tag :: payload ++ stale)) l pre.length
      = ⟨.returned 0, [], sc⟩ := by
  have hbuf : pre ++ (tag :: payload ++ stale) = pre ++ tag :: (payload ++ stale) := by simp
  have h1 : tag ≠ MESSAGE_GO := by unfold MESSAGE_GO; omega
  have h2 : tag ≠ MESSAGE_WRITE := by unfold MESSAGE_WRITE; omega
  have h3 : tag ≠ MESSAGE_READ := by unfold MESSAGE_READ; omega
  rw [hbuf, switch_default sc pre _ tag l h1 h2 h3]

/-- C6: a Write frame whose name is terminated within the received bytes, and
behind whose terminator fewer than 5 bytes follow or the count byte differs
from the number of bytes behind it, ends `ipc_receive` in an error without a
call of the write handler or of any other: the assertion on the frame fails
(or, for a frame of `MAX_LEN` bytes, 0 is returned), on the
message-preserving socket and on the stream socket when the frame arrives in
one read. -/
theorem ipc_receive_write_malformed {U : Type} (sc : ipc_softc U)
    (name tail stale buffer : List Nat) (rest : List RecvEvent) (hname : 0 ∉ name)
    (h : tail.length < 5 ∨ ∃ b0 b1 b2 b3 k data,
      tail = b0 :: b1 :: b2 :: b3 :: k :: data ∧ k ≠ data.length) :
    ipc_receive sc ((MESSAGE_WRITE :: (name ++ 0 :: tail)).length : Nat)
        (MESSAGE_WRITE :: (name ++ 0 :: tail) ++ stale)
      = ⟨if (MESSAGE_WRITE :: (name ++ 0 :: tail)).length < MAX_LEN then .assertFailed
          else .returned 0, [], sc⟩
    ∧ ((MESSAGE_WRITE :: (name ++ 0 :: tail)).length + 2 < MAX_LEN →
        ipc_receive_win32 sc (.bytes (stream_frame (MESSAGE_WRITE :: (name ++ 0 :: tail))) :: rest)
          buffer = ⟨.assertFailed, [], sc⟩) := by
  have hb := ipc_receive_of_switch sc (MESSAGE_WRITE :: (name ++ 0 :: tail))
    ⟨.assertFailed, [], sc⟩ (fun pre stale => switch_write_malformed sc pre name tail stale hname h)
    (by simp)
  constructor
  · by_cases hl : (MESSAGE_WRITE :: (name ++ 0 :: tail)).length < MAX_LEN
    · rw [if_pos hl]; exact hb.1 hl stale
    · rw [if_neg hl]; exact ipc_receive_too_long sc _ stale hl
  · intro hl; exact hb.2 hl rest buffer

/-- Witness of C6: the count byte says 3 and two bytes follow. -/
theorem ipc_receive_write_malformed_witness :
    (0 ∉ sig_a
      ∧ ((LE32 3 ++ [3, 1, 2]).length < 5 ∨ ∃ b0 b1 b2 b3 k data,
        LE32 3 ++ [3, 1, 2] = b0 :: b1 :: b2 :: b3 :: k :: data ∧ k ≠ data.length)
      ∧ (MESSAGE_WRITE :: (sig_a ++ 0 :: (LE32 3 ++ [3, 1, 2]))).length + 2 < MAX_LEN)
    ∧ ipc_receive sample_sc ((MESSAGE_WRITE :: (sig_a ++ 0 :: (LE32 3 ++ [3, 1, 2]))).length : Nat)
        (MESSAGE_WRITE :: (sig_a ++ 0 :: (LE32 3 ++ [3, 1, 2])) ++ List.replicate 2034 170)
      = ⟨if (MESSAGE_WRITE :: (sig_a ++ 0 :: (LE32 3 ++ [3, 1, 2]))).length < MAX_LEN
          then .assertFailed else .returned 0, [], sample_sc⟩
    ∧ ipc_receive_win32 sample_sc
        [.bytes (stream_frame (MESSAGE_WRITE :: (sig_a ++ 0 :: (LE32 3 ++ [3, 1, 2]))))]
        (List.replicate 2048 170) = ⟨.assertFailed, [], sample_sc⟩ :=
  have h : (LE32 3 ++ [3, 1, 2]).length < 5 ∨ ∃ b0 b1 b2 b3 k data,
      LE32 3 ++ [3, 1, 2] = b0 :: b1 :: b2 :: b3 :: k :: data ∧ k ≠ data.length :=
    Or.inr ⟨3, 0, 0, 0, 3, [1, 2], rfl, by decide⟩
  ⟨⟨by decide, h, by decide⟩,
    (ipc_receive_write_malformed sample_sc sig_a (LE32 3 ++ [3, 1, 2]) (List.replicate 2034 170)
      (List.replicate 2048 170) [] (by decide) h).1,
    (ipc_receive_write_malformed sample_sc sig_a (LE32 3 ++ [3, 1, 2]) (List.replicate 2034 170)
      (List.replicate 2048 170) [] (by decide) h).2 (by decide)⟩

/-- What `ipc_receive` does with a Write or Read frame shorter than `MAX_LEN`
in which no null byte follows the type byte: no handler is called; the run
ends in a failed assertion when a null byte lies in the array behind the
frame, and with `strlen` leaving the array when none does. -/
theorem ipc_receive_unterminated {U : Type} (sc : ipc_softc U) (tag : Nat)
    (payload stale : List Nat) (htag : tag = MESSAGE_WRITE ∨ tag = MESSAGE_READ)
    (h : 0 ∉ payload) (hlen : (tag :: payload).length < MAX_LEN) :
    ipc_receive sc ((tag :: payload).length : Nat) (tag :: payload ++ stale)
      = ⟨if (strlen stale).isSome then .assertFailed else .outOfBounds, [], sc⟩ := by
  rw [ipc_receive_of_frame sc (tag :: payload) stale (by simp) hlen]
  have := switch_unterminated sc [] payload stale tag ((tag :: payload).length : Nat) htag h
    (by simp only [List.length_cons, List.length_nil]; push_cast; omega)
  simpa using this

/-- C7, the code at a failing input: the Read frame `[3, 65]` holds no null
byte behind the type byte.  In an array whose other 2046 bytes are `0xAA` the
`strlen` of `ipc_receive` runs beyond the end of the array; in an array whose
other bytes are null the assertion fails.  What the run does is decided by
bytes that were not received. -/
theorem ipc_receive_unterminated_overrun :
    ipc_receive sample_sc (([MESSAGE_READ, 65] : List Nat).length : Nat)
        ([MESSAGE_READ, 65] ++ List.replicate 2046 170) = ⟨.outOfBounds, [], sample_sc⟩
    ∧ ipc_receive sample_sc (([MESSAGE_READ, 65] : List Nat).length : Nat)
        ([MESSAGE_READ, 65] ++ List.replicate 2046 0) = ⟨.assertFailed, [], sample_sc⟩ := by
  constructor
  · rw [ipc_receive_unterminated sample_sc MESSAGE_READ [65] _ (Or.inr rfl) (by decide)
      (by decide)]
    rw [strlen_none (List.replicate 2046 170)
      (fun hm => absurd (List.eq_of_mem_replicate hm) (by decide))]
    rfl
  · rw [ipc_receive_unterminated sample_sc MESSAGE_READ [65] _ (Or.inr rfl) (by decide)
      (by decide)]
    have : strlen (List.replicate 2046 0) = some 0 := by
      rw [show (2046 : Nat) = 2045 + 1 from rfl, List.replicate_succ]; rfl
    rw [this]
    rfl

/-- C8: a Read frame whose name is terminated within the received bytes and
behind whose terminator the number of bytes is not 4 ends `ipc_receive` in an
error without a call of the read handler or of any other: the assertion on the
frame fails (or, for a frame of `MAX_LEN` bytes, 0 is returned), on the
message-preserving socket and on the stream socket when the frame arrives in
one read. -/
theorem ipc_receive_read_malformed {U : Type} (sc : ipc_softc U)
    (name tail stale buffer : List Nat) (rest : List RecvEvent) (hname : 0 ∉ name)
    (h : tail.length ≠ 4) :
    ipc_receive sc ((MESSAGE_READ :: (name ++ 0 :: tail)).length : Nat)
        (MESSAGE_READ :: (name ++ 0 :: tail) ++ stale)
      = ⟨if (MESSAGE_READ :: (name ++ 0 :: tail)).length < MAX_LEN then .assertFailed
          else .returned 0, [], sc⟩
    ∧ ((MESSAGE_READ :: (name ++ 0 :: tail)).length + 2 < MAX_LEN →
        ipc_receive_win32 sc (.bytes (stream_frame (MESSAGE_READ :: (name ++ 0 :: tail))) :: rest)
          buffer = ⟨.assertFailed, [], sc⟩) := by
  have hb := ipc_receive_of_switch sc (MESSAGE_READ :: (name ++ 0 :: tail))
    ⟨.assertFailed, [], sc⟩ (fun pre stale => switch_read_malformed sc pre name tail stale hname h)
    (by simp)
  constructor
  · by_cases hl : (MESSAGE_READ :: (name ++ 0 :: tail)).length < MAX_LEN
    · rw [if_pos hl]; exact hb.1 hl stale
    · rw [if_neg hl]; exact ipc_receive_too_long sc _ stale hl
  · intro hl; exact hb.2 hl rest buffer

/-- Witness of C8: five bytes behind the terminator of `sig_b`. -/
theorem ipc_receive_read_malformed_witness :
    (0 ∉ sig_b ∧ (LE32 7 ++ [1]).length ≠ 4
      ∧ (MESSAGE_READ :: (sig_b ++ 0 :: (LE32 7 ++ [1]))).length + 2 < MAX_LEN)
    ∧ ipc_receive sample_sc ((MESSAGE_READ :: (sig_b ++ 0 :: (LE32 7 ++ [1]))).length : Nat)
        (MESSAGE_READ :: (sig_b ++ 0 :: (LE32 7 ++ [1])) ++ List.replicate 2036 170)
      = ⟨if (MESSAGE_READ :: (sig_b ++ 0 :: (LE32 7 ++ [1]))).length < MAX_LEN
          then .assertFailed else .returned 0, [], sample_sc⟩
    ∧ ipc_receive_win32 sample_sc
        [.bytes (stream_frame (MESSAGE_READ :: (sig_b ++ 0 :: (LE32 7 ++ [1]))))]
        (List.replicate 2048 170) = ⟨.assertFailed, [], sample_sc⟩ :=
  ⟨⟨by decide, by decide, by decide⟩,
    (ipc_receive_read_malformed sample_sc sig_b (LE32 7 ++ [1]) (List.replicate 2036 170)
      (List.replicate 2048 170) [] (by decide) (by decide)).1,
    (ipc_receive_read_malformed sample_sc sig_b (LE32 7 ++ [1]) (List.replicate 2036 170)
      (List.replicate 2048 170) [] (by decide) (by decide)).2 (by decide)⟩

/-- C9: a frame with the Go type byte and a payload that is not empty ends
`ipc_receive` in an error without a call of the advance handler or of any
other: the assertion `(l - i) == 0` fails (or, for a frame of `MAX_LEN` bytes,
0 is returned), on the message-preserving socket and on the stream socket when
the frame arrives in one read. -/
theorem ipc_receive_go_payload {U : Type} (sc : ipc_softc U) (payload stale buffer : List Nat)
    (rest : List RecvEvent) (h : payload ≠ []) :
    ipc_receive sc ((MESSAGE_GO :: payload).length : Nat) (MESSAGE_GO :: payload ++ stale)
      = ⟨if (MESSAGE_GO :: payload).length < MAX_LEN then .assertFailed else .returned 0,
          [], sc⟩
    ∧ ((MESSAGE_GO :: payload).length + 2 < MAX_LEN →
        ipc_receive_win32 sc (.bytes (stream_frame (MESSAGE_GO :: payload)) :: rest) buffer
          = ⟨.assertFailed, [], sc⟩) := by
  have hb := ipc_receive_of_switch sc (MESSAGE_GO :: payload)
    ⟨.assertFailed, [], sc⟩ (fun pre stale => switch_go_payload sc pre payload stale h)
    (by simp)
  constructor
  · by_cases hl : (MESSAGE_GO :: payload).length < MAX_LEN
    · rw [if_pos hl]; exact hb.1 hl stale
    · rw [if_neg hl]; exact ipc_receive_too_long sc _ stale hl
  · intro hl; exact hb.2 hl rest buffer

/-- Witness of C9: a Go frame with the one payload byte 5. -/
theorem ipc_receive_go_payload_witness :
    (([5] : List Nat) ≠ [] ∧ (MESSAGE_GO :: [5]).length + 2 < MAX_LEN)
    ∧ ipc_receive sample_sc ((MESSAGE_GO :: [5]).length : Nat)
        (MESSAGE_GO :: [5] ++ List.replicate 2046 170)
      = ⟨if (MESSAGE_GO :: [5]).length < MAX_LEN then .assertFailed else .returned 0,
          [], sample_sc⟩
    ∧ ipc_receive_win32 sample_sc [.bytes (stream_frame (MESSAGE_GO :: [5]))]
        (List.replicate 2048 170) = ⟨.assertFailed, [], sample_sc⟩ :=
  ⟨⟨by decide, by decide⟩,
    (ipc_receive_go_payload sample_sc [5] (List.replicate 2046 170) (List.replicate 2048 170) []
      (by decide)).1,
    (ipc_receive_go_payload sample_sc [5] (List.replicate 2046 170) (List.replicate 2048 170) []
      (by decide)).2 (by decide)⟩

/-- C10: a frame whose type byte is 5 or more makes `ipc_receive` return 0
without a handler call and leaves the connection record as it was, so that the
next call of `ipc_receive`, whatever `recv` then delivers, does what it does on
the record that never saw the frame; on the message-preserving socket and on
the stream socket when the frame arrives in one read. -/
theorem ipc_receive_unknown_type {U : Type} (sc : ipc_softc U) (tag : Nat)
    (payload stale buffer : List Nat) (rest : List RecvEvent) (htag : 5 ≤ tag) :
    (ipc_receive sc ((tag :: payload).length : Nat) (tag :: payload ++ stale)
        = ⟨.returned 0, [], sc⟩
      ∧ ∀ (l2 : Int) (buffer2 : List Nat),
          ipc_receive
              (ipc_receive sc ((tag :: payload).length : Nat) (tag :: payload ++ stale)).sc
              l2 buffer2
            = ipc_receive sc l2 buffer2)
    ∧ ((tag :: payload).length + 2 < MAX_LEN →
        ipc_receive_win32 sc (.bytes (stream_frame (tag :: payload)) :: rest) buffer
            = ⟨.returned 0, [], sc⟩
        ∧ ∀ (t2 : List RecvEvent) (buffer2 : List Nat),
          ipc_receive_win32
              (ipc_receive_win32 sc (.bytes (stream_frame (tag :: payload)) :: rest) buffer).sc
              t2 buffer2
            = ipc_receive_win32 sc t2 buffer2) := by
  have hb := ipc_receive_of_switch sc (tag :: payload)
    ⟨.returned 0, [], sc⟩ (fun pre stale => switch_unknown sc pre payload stale tag _ htag)
    (by simp)
  have h1 : ipc_receive sc ((tag :: payload).length : Nat) (tag :: payload ++ stale)
      = ⟨.returned 0, [], sc⟩ := by
    by_cases hl : (tag :: payload).length < MAX_LEN
    · exact hb.1 hl stale
    · exact ipc_receive_too_long sc _ stale hl
  refine ⟨⟨h1, ?_⟩, ?_⟩
  · intro l2 buffer2; rw [h1]
  · intro hl
    have h2 := hb.2 hl rest buffer
    refine ⟨h2, ?_⟩
    intro t2 buffer2; rw [h2]

/-- Witness of C10: the type byte 9 with two payload bytes. -/
theorem ipc_receive_unknown_type_witness :
    (5 ≤ 9 ∧ ((9 : Nat) :: [1, 2]).length + 2 < MAX_LEN)
    ∧ ipc_receive sample_sc (((9 : Nat) :: [1, 2]).length : Nat)
        (9 :: [1, 2] ++ List.replicate 2045 170) = ⟨.returned 0, [], sample_sc⟩
    ∧ ipc_receive_win32 sample_sc [.bytes (stream_frame (9 :: [1, 2]))]
        (List.replicate 2048 170) = ⟨.returned 0, [], sample_sc⟩ :=
  ⟨⟨by decide, by decide⟩,
    (ipc_receive_unknown_type sample_sc 9 [1, 2] (List.replicate 2045 170)
      (List.replicate 2048 170) [] (by decide)).1.1,
    ((ipc_receive_unknown_type sample_sc 9 [1, 2] (List.replicate 2045 170)
      (List.replicate 2048 170) [] (by decide)).2 (by decide)).1⟩

/-! ## The sending functions -/

theorem wrap_int_of_range (x : Int) (h0 : -2147483648 ≤ x) (h1 : x < 2147483648) :
    wrap_int x = x := by
  unfold wrap_int
  norm_num
  omega

theorem int_pattern_of_nat (k : Nat) (h : k < 4294967296) : int_pattern (k : Int) = k := by
  unfold int_pattern
  norm_num
  omega

theorem and_0xFF (p : Nat) : p &&& 0xFF = p % 256 :=
  Nat.and_pow_two_sub_one_eq_mod p 8

theorem and_0xFF00_shr (p : Nat) : (0xFF00 &&& p) >>> 8 = p / 256 % 256 := by
  apply Nat.eq_of_testBit_eq
  intro i
  have h1 : (0xFF00 : Nat) = (2 ^ 8 - 1) <<< 8 := by decide
  have h2 : p / 256 % 256 = (p >>> 8) % 2 ^ 8 := by
    rw [Nat.shiftRight_eq_div_pow]; norm_num
  rw [h2, Nat.testBit_shiftRight, Nat.testBit_and, h1, Nat.testBit_shiftLeft,
    Nat.testBit_mod_two_pow, Nat.testBit_shiftRight, Nat.testBit_two_pow_sub_one]
  simp

/-- Storing behind bytes that were stored before, from the start of the
array on. -/
theorem store_after (pre bs buffer : List Nat) :
    store (pre ++ buffer.drop pre.length) pre.length bs
      = (pre ++ bs) ++ buffer.drop (pre ++ bs).length := by
  unfold store
  have h1 : (pre ++ buffer.drop pre.length).take pre.length = pre := by simp
  have h2 : (pre ++ buffer.drop pre.length).drop (pre.length + bs.length)
      = buffer.drop (pre ++ bs).length := by
    rw [drop_append_add, List.drop_drop, List.length_append]
  rw [h1, h2]

theorem store_first (bs buffer : List Nat) :
    store buffer 0 bs = bs ++ buffer.drop bs.length := by
  have := store_after [] bs buffer
  simpa using this

/-- The array of `ipc_read_reply` when `send` is called: the type byte, the
count byte and the chunks, then what the array held before. -/
theorem read_reply_buffer (buffer chunks : List Nat) (a b : Nat) :
    store (store (store buffer 0 [a]) 1 [b]) 2 chunks
      = [a, b] ++ chunks ++ buffer.drop (2 + chunks.length) := by
  rw [store_first]
  have h1 := store_after [a] [b] buffer
  have h2 := store_after [a, b] chunks buffer
  simp only [List.length_singleton, List.length_cons, List.length_nil, List.length_append,
    List.singleton_append, List.cons_append, List.nil_append] at h1 h2 ⊢
  rw [h1, h2]
  congr 4
  omega

/-- The array of `ipc_read_reply` under `_WIN32` when `send` is called. -/
theorem read_reply_win32_buffer (buffer chunks : List Nat) (a b c d : Nat) :
    store (store (store (store (store buffer 0 [a]) 1 [b]) 2 [c]) 3 [d]) 4 chunks
      = [a, b, c, d] ++ chunks ++ buffer.drop (4 + chunks.length) := by
  rw [store_first]
  have h1 := store_after [a] [b] buffer
  have h2 := store_after [a, b] [c] buffer
  have h3 := store_after [a, b, c] [d] buffer
  have h4 := store_after [a, b, c, d] chunks buffer
  simp only [List.length_singleton, List.length_cons, List.length_nil, List.length_append,
    List.singleton_append, List.cons_append, List.nil_append] at h1 h2 h3 h4 ⊢
  rw [h1, h2, h3, h4]
  congr 6
  omega

/-- What `ipc_read_reply` does when `nchunks` is a count from 0 to 255 and the
array `chunks` holds that many bytes. -/
theorem ipc_read_reply_eq {U : Type} (sc : ipc_softc U) (k : Nat) (chunks buffer : List Nat)
    (l : Int) (hk : k ≤ 255) (hc : k ≤ chunks.length) :
    ipc_read_reply sc (k : Int) chunks buffer l
      = ⟨.returned (if l = (k : Int) + 2 then 1 else 0),
          [(sc.socket, [MESSAGE_READ_REPLY, k] ++ chunks.take k)],
          [MESSAGE_READ_REPLY, k] ++ chunks.take k ++ buffer.drop (2 + k)⟩ := by
  have hM : (MAX_LEN : Int) = 2048 := rfl
  have hlen : wrap_int ((k : Int) + 2) = (k : Int) + 2 := wrap_int_of_range _ (by omega) (by omega)
  have hpat : int_pattern (k : Int) % 256 = k := by
    rw [int_pattern_of_nat k (by omega)]; omega
  have htl : ((chunks.take k).length) = k := by simp [hc]
  unfold ipc_read_reply
  simp only [hlen, hpat, Int.toNat_ofNat]
  rw [if_neg (by omega), if_neg (by omega), if_neg (by omega), read_reply_buffer, htl]
  have hn : ((k : Int) + 2).toNat = k + 2 := by omega
  have htake : ([MESSAGE_READ_REPLY, k] ++ chunks.take k ++ buffer.drop (2 + k)).take (k + 2)
      = [MESSAGE_READ_REPLY, k] ++ chunks.take k := by
    rw [List.take_append_of_le_length (by simp [htl])]
    apply List.take_of_length_le
    simp [htl]
  rw [hn, htake]
  by_cases h : l = (k : Int) + 2
  · simp [h]
  · simp [h]

/-- What `ipc_read_reply` under `_WIN32` does when `nchunks` is a count from 0
to 255 and the array `chunks` holds that many bytes. -/
theorem ipc_read_reply_win32_eq {U : Type} (sc : ipc_softc U) (k : Nat)
    (chunks buffer : List Nat) (l : Int) (hk : k ≤ 255) (hc : k ≤ chunks.length) :
    ipc_read_reply_win32 sc (k : Int) chunks buffer l
      = ⟨.returned (if l = (k : Int) + 4 then 1 else 0),
          [(sc.socket, [(k + 4) % 256, (k + 4) / 256, MESSAGE_READ_REPLY, k] ++ chunks.take k)],
          [(k + 4) % 256, (k + 4) / 256, MESSAGE_READ_REPLY, k] ++ chunks.take k
            ++ buffer.drop (4 + k)⟩ := by
  have hM : (MAX_LEN : Int) = 2048 := rfl
  have hlen : wrap_int ((k : Int) + 4) = ((k + 4 : Nat) : Int) := by
    rw [wrap_int_of_range _ (by omega) (by omega)]; push_cast; rfl
  have hpat : int_pattern (k : Int) % 256 = k := by
    rw [int_pattern_of_nat k (by omega)]; omega
  have hpl : int_pattern ((k + 4 : Nat) : Int) = k + 4 := int_pattern_of_nat _ (by omega)
  have h0 : ((k + 4) &&& 0xFF) % 256 = (k + 4) % 256 := by
    rw [and_0xFF]; omega
  have h1 : ((0xFF00 &&& (k + 4)) >>> 8) % 256 = (k + 4) / 256 := by
    rw [and_0xFF00_shr]; omega
  have htl : ((chunks.take k).length) = k := by simp [hc]
  unfold ipc_read_reply_win32
  simp only [hlen, hpat, hpl, h0, h1, Int.toNat_ofNat]
  rw [if_neg (by omega), if_neg (by omega), if_neg (by omega), read_reply_win32_buffer, htl]
  have htake : ([(k + 4) % 256, (k + 4) / 256, MESSAGE_READ_REPLY, k] ++ chunks.take k
        ++ buffer.drop (4 + k)).take (k + 4)
      = [(k + 4) % 256, (k + 4) / 256, MESSAGE_READ_REPLY, k] ++ chunks.take k := by
    rw [List.take_append_of_le_length (by simp [htl])]
    apply List.take_of_length_le
    simp [htl]
  rw [htake]
  by_cases h : l = (k : Int) + 4
  · simp [h]
  · have h2 : ¬ l = ((k + 4 : Nat) : Int) := by push_cast; exact h
    simp [h, h2]

/-! ## The unpacking code does not depend on where the message starts -/

theorem switch_shift {U : Type} (sc : ipc_softc U) (pre rest : List Nat) (l : Int) (i : Nat) :
    ipc_receive_switch sc (pre ++ rest) ((pre.length : Int) + l) (pre.length + i)
      = ipc_receive_switch sc rest l i := by
  have e1 : ∀ x : Int, ((pre.length : Int) + x = (pre.length : Int) + l) = (x = l) := by
    intro x; apply propext; omega
  have e2 : ∀ x : Int, ((pre.length : Int) + x < (pre.length : Int) + l) = (x < l) := by
    intro x; apply propext; omega
  have e3 : ∀ x : Int, ((pre.length : Int) + l - ((pre.length : Int) + x) = 0) = (l - x = 0) := by
    intro x; apply propext; omega
  unfold ipc_receive_switch
  simp only [Nat.add_assoc, getElem?_append_add, drop_append_add, load_le32_append_add,
    Nat.cast_add, Int.add_assoc, e1, e2, e3]

/-- C11: for every `chunk_data` of a length `k` from 0 to 255,
`ipc_read_reply(sc, k, chunk_data)` hands `send` exactly the `k + 2` bytes
`[4, k] ++ chunk_data` on the message-preserving socket, and exactly the
`k + 4` bytes `[(k+4) mod 256, (k+4) div 256, 4, k] ++ chunk_data` under
`_WIN32`, whatever the local array held and whatever `send` returns. -/
theorem ipc_read_reply_bytes {U : Type} (sc : ipc_softc U) (chunk_data buffer : List Nat)
    (l : Int) (hk : chunk_data.length ≤ 255) :
    ((ipc_read_reply sc (chunk_data.length : Nat) chunk_data buffer l).sent
        = [(sc.socket, [MESSAGE_READ_REPLY, chunk_data.length] ++ chunk_data)]
      ∧ ([MESSAGE_READ_REPLY, chunk_data.length] ++ chunk_data).length = chunk_data.length + 2)
    ∧ ((ipc_read_reply_win32 sc (chunk_data.length : Nat) chunk_data buffer l).sent
        = [(sc.socket, [(chunk_data.length + 4) % 256, (chunk_data.length + 4) / 256,
            MESSAGE_READ_REPLY, chunk_data.length] ++ chunk_data)]
      ∧ ([(chunk_data.length + 4) % 256, (chunk_data.length + 4) / 256,
            MESSAGE_READ_REPLY, chunk_data.length] ++ chunk_data).length
          = chunk_data.length + 4) := by
  rw [ipc_read_reply_eq sc _ chunk_data buffer l hk (le_refl _),
    ipc_read_reply_win32_eq sc _ chunk_data buffer l hk (le_refl _)]
  simp only [List.take_length]
  refine ⟨⟨?_, ?_⟩, ?_, ?_⟩ <;> simp

/-- Witness of C11: the reply with the one chunk byte `0x42`. -/
theorem ipc_read_reply_bytes_witness :
    ([0x42] : List Nat).length ≤ 255
    ∧ (ipc_read_reply sample_sc (([0x42] : List Nat).length : Nat) [0x42]
        (List.replicate 2048 170) 3).sent = [(3, [4, 1, 0x42])]
    ∧ (ipc_read_reply_win32 sample_sc (([0x42] : List Nat).length : Nat) [0x42]
        (List.replicate 2048 170) 5).sent = [(3, [5, 0, 4, 1, 0x42])] :=
  ⟨by decide,
    (ipc_read_reply_bytes sample_sc [0x42] (List.replicate 2048 170) 3 (by decide)).1.1,
    (ipc_read_reply_bytes sample_sc [0x42] (List.replicate 2048 170) 5 (by decide)).2.1⟩

/-- What `ipc_read_reply` does with a count of 256 or more, in both
compilations: an assertion fails, nothing is stored in the array and nothing
is sent. -/
theorem ipc_read_reply_too_many {U : Type} (sc : ipc_softc U) (nchunks : Int)
    (chunks buffer : List Nat) (l : Int) (h : 256 ≤ nchunks) :
    ipc_read_reply sc nchunks chunks buffer l = ⟨.assertFailed, [], buffer⟩
    ∧ ipc_read_reply_win32 sc nchunks chunks buffer l = ⟨.assertFailed, [], buffer⟩ := by
  constructor
  · unfold ipc_read_reply
    by_cases h1 : wrap_int (nchunks + 2) < (MAX_LEN : Int)
    · simp only [h1, not_true_eq_false, if_false]
      rw [if_pos (by omega)]
    · simp only [h1, not_false_eq_true, if_true]
  · unfold ipc_read_reply_win32
    by_cases h1 : wrap_int (nchunks + 4) < (MAX_LEN : Int)
    · simp only [h1, not_true_eq_false, if_false]
      rw [if_pos (by omega)]
    · simp only [h1, not_false_eq_true, if_true]

/-- What `ipc_read_reply` does with the count -1, in both compilations: both
assertions hold, the bytes in front of the chunks are stored in the array, and
`memcpy` is called with a count beyond every array; `send` is not reached. -/
theorem ipc_read_reply_negative {U : Type} (sc : ipc_softc U) (chunks buffer : List Nat)
    (l : Int) :
    ipc_read_reply sc (-1) chunks buffer l
        = ⟨.outOfBounds, [], [MESSAGE_READ_REPLY, 255] ++ buffer.drop 2⟩
    ∧ ipc_read_reply_win32 sc (-1) chunks buffer l
        = ⟨.outOfBounds, [], [3, 0, MESSAGE_READ_REPLY, 255] ++ buffer.drop 4⟩ := by
  have hw2 : wrap_int (-1 + 2) = 1 := by decide
  have hw4 : wrap_int (-1 + 4) = 3 := by decide
  have hp : int_pattern (-1) % 256 = 255 := by decide
  have hp3 : (int_pattern 3 &&& 0xFF) % 256 = 3 := by decide
  have hp3b : ((0xFF00 &&& int_pattern 3) >>> 8) % 256 = 0 := by decide
  have hM : (MAX_LEN : Int) = 2048 := rfl
  constructor
  · unfold ipc_read_reply
    simp only [hw2, hp]
    rw [if_neg (by omega), if_neg (by omega), if_pos (by omega)]
    have := read_reply_buffer buffer [] MESSAGE_READ_REPLY 255
    simp [store] at this ⊢
  · unfold ipc_read_reply_win32
    simp only [hw4, hp, hp3, hp3b]
    rw [if_neg (by omega), if_neg (by omega), if_pos (by omega)]
    have := read_reply_win32_buffer buffer [] 3 0 MESSAGE_READ_REPLY 255
    simp [store] at this ⊢

/-- C12, the code at a failing input: with `nchunks = -1` both assertions of
`ipc_read_reply` hold, the type byte and the count byte `0xFF` are stored in
the array, and `memcpy` is called with a count beyond every array, in both
compilations. -/
theorem ipc_read_reply_minus_one :
    ipc_read_reply sample_sc (-1) [1, 2, 3] (List.replicate 2048 170) 1
        = ⟨.outOfBounds, [], [MESSAGE_READ_REPLY, 255] ++ (List.replicate 2048 170).drop 2⟩
    ∧ ipc_read_reply_win32 sample_sc (-1) [1, 2, 3] (List.replicate 2048 170) 3
        = ⟨.outOfBounds, [], [3, 0, MESSAGE_READ_REPLY, 255]
            ++ (List.replicate 2048 170).drop 4⟩ :=
  ⟨(ipc_read_reply_negative sample_sc [1, 2, 3] (List.replicate 2048 170) 1).1,
    (ipc_read_reply_negative sample_sc [1, 2, 3] (List.replicate 2048 170) 3).2⟩

/-- C13: for every `chunk_data` of a length from 0 to 255, the bytes
`ipc_read_reply` hands to `send` decode, by the rule of the companion (type
byte 4, one count byte, exactly that many bytes; behind the two length bytes
under `_WIN32`), to `chunk_data`. -/
theorem ipc_read_reply_roundtrip {U : Type} (sc : ipc_softc U) (chunk_data buffer : List Nat)
    (l : Int) (hk : chunk_data.length ≤ 255) :
    (ipc_read_reply sc (chunk_data.length : Nat) chunk_data buffer l).sent.map
        (fun p => decode_read_reply p.2) = [some chunk_data]
    ∧ (ipc_read_reply_win32 sc (chunk_data.length : Nat) chunk_data buffer l).sent.map
        (fun p => (decode_stream_frame p.2).bind decode_read_reply) = [some chunk_data] := by
  rw [ipc_read_reply_eq sc _ chunk_data buffer l hk (le_refl _),
    ipc_read_reply_win32_eq sc _ chunk_data buffer l hk (le_refl _)]
  simp only [List.take_length]
  constructor
  · simp [decode_read_reply]
  · have : (chunk_data.length + 4) % 256 + 256 * ((chunk_data.length + 4) / 256)
        = (MESSAGE_READ_REPLY :: chunk_data.length :: chunk_data).length + 2 := by
      simp only [List.length_cons]; omega
    simp [decode_stream_frame, decode_read_reply, this]

/-- Witness of C13: a reply of 255 chunk bytes, for which the length in front
of the stream frame needs its second byte. -/
theorem ipc_read_reply_roundtrip_witness :
    (List.replicate 255 7).length ≤ 255
    ∧ (ipc_read_reply sample_sc ((List.replicate 255 7).length : Nat) (List.replicate 255 7)
        (List.replicate 2048 170) 257).sent.map
        (fun p => decode_read_reply p.2) = [some (List.replicate 255 7)]
    ∧ (ipc_read_reply_win32 sample_sc ((List.replicate 255 7).length : Nat)
        (List.replicate 255 7) (List.replicate 2048 170) 259).sent.map
        (fun p => (decode_stream_frame p.2).bind decode_read_reply)
          = [some (List.replicate 255 7)] :=
  have h : (List.replicate 255 7).length ≤ 255 := by
    rw [List.length_replicate]
  ⟨h,
    (ipc_read_reply_roundtrip sample_sc (List.replicate 255 7) (List.replicate 2048 170) 257
      h).1,
    (ipc_read_reply_roundtrip sample_sc (List.replicate 255 7) (List.replicate 2048 170) 259
      h).2⟩

/-- C14: `ipc_tick` hands `send` exactly the byte `[0]` on the
message-preserving socket and exactly the bytes `[3, 0, 0]` under `_WIN32`, on
the socket of the connection and whatever its handlers and user context
are. -/
theorem ipc_tick_bytes {U : Type} (sc : ipc_softc U) (l : Int) :
    (ipc_tick sc l).sent = [(sc.socket, [0])]
    ∧ (ipc_tick_win32 sc l).sent = [(sc.socket, [3, 0, 0])] := by
  constructor
  · unfold ipc_tick; split <;> rfl
  · unfold ipc_tick_win32; split <;> rfl

/-- C15: `ipc_tick`, and `ipc_read_reply` with a count `k` from 0 to 255, call
`send` exactly once, with the encoded bytes, and return 1 when `send` returned
the encoded length (1 for `ipc_tick`, 3 under `_WIN32`; `k + 2` for
`ipc_read_reply`, `k + 4` under `_WIN32`), 0 for every other value returned by
`send`. -/
theorem ipc_send_once {U : Type} (sc : ipc_softc U) (k : Nat) (chunks buffer : List Nat)
    (l : Int) (hk : k ≤ 255) (hc : k ≤ chunks.length) :
    ((ipc_tick sc l).sent = [(sc.socket, [MESSAGE_TICK])]
      ∧ (ipc_tick sc l).status = .returned (if l = 1 then 1 else 0))
    ∧ ((ipc_tick_win32 sc l).sent = [(sc.socket, [3, 0, MESSAGE_TICK])]
      ∧ (ipc_tick_win32 sc l).status = .returned (if l = 3 then 1 else 0))
    ∧ ((ipc_read_reply sc (k : Int) chunks buffer l).sent
          = [(sc.socket, [MESSAGE_READ_REPLY, k] ++ chunks.take k)]
      ∧ ([MESSAGE_READ_REPLY, k] ++ chunks.take k).length = k + 2
      ∧ (ipc_read_reply sc (k : Int) chunks buffer l).status
          = .returned (if l = (k : Int) + 2 then 1 else 0))
    ∧ ((ipc_read_reply_win32 sc (k : Int) chunks buffer l).sent
          = [(sc.socket, [(k + 4) % 256, (k + 4) / 256, MESSAGE_READ_REPLY, k] ++ chunks.take k)]
      ∧ ([(k + 4) % 256, (k + 4) / 256, MESSAGE_READ_REPLY, k] ++ chunks.take k).length = k + 4
      ∧ (ipc_read_reply_win32 sc (k : Int) chunks buffer l).status
          = .returned (if l = (k : Int) + 4 then 1 else 0)) := by
  have htl : ((chunks.take k).length) = k := by simp [hc]
  refine ⟨⟨?_, ?_⟩, ⟨?_, ?_⟩, ⟨?_, ?_, ?_⟩, ?_, ?_, ?_⟩
  · unfold ipc_tick; split <;> rfl
  · unfold ipc_tick
    by_cases h : l = 1
    · simp [h]
    · simp [h]
  · unfold ipc_tick_win32; split <;> rfl
  · unfold ipc_tick_win32
    by_cases h : l = 3
    · simp [h]
    · simp [h]
  · rw [ipc_read_reply_eq sc k chunks buffer l hk hc]
  · simp [htl]
  · rw [ipc_read_reply_eq sc k chunks buffer l hk hc]
  · rw [ipc_read_reply_win32_eq sc k chunks buffer l hk hc]
  · simp [htl]
  · rw [ipc_read_reply_win32_eq sc k chunks buffer l hk hc]

/-- Witness of C15: the reply `[4, 1, 0x42]` of three bytes; `send` reports a
short write of two bytes and 0 is returned, `send` reports zero bytes for the
tick and 0 is returned. -/
theorem ipc_send_once_witness :
    (1 ≤ 255 ∧ 1 ≤ ([0x42] : List Nat).length)
    ∧ ((ipc_read_reply sample_sc ((1 : Nat) : Int) [0x42] (List.replicate 2048 170) 2).sent
          = [(sample_sc.socket, [MESSAGE_READ_REPLY, 1] ++ [0x42].take 1)]
      ∧ (ipc_read_reply sample_sc ((1 : Nat) : Int) [0x42] (List.replicate 2048 170) 2).status
          = .returned 0)
    ∧ ((ipc_tick sample_sc 0).sent = [(sample_sc.socket, [MESSAGE_TICK])]
      ∧ (ipc_tick sample_sc 0).status = .returned 0) :=
  ⟨⟨by decide, by decide⟩,
    ⟨(ipc_send_once sample_sc 1 [0x42] (List.replicate 2048 170) 2 (by decide)
        (by decide)).2.2.1.1,
      (ipc_send_once sample_sc 1 [0x42] (List.replicate 2048 170) 2 (by decide)
        (by decide)).2.2.1.2.2⟩,
    (ipc_send_once sample_sc 1 [0x42] (List.replicate 2048 170) 0 (by decide) (by decide)).1⟩

/-! ## The two compilations on one message -/

/-- The stream compilation of `ipc_receive`, when the first `recv` delivers
the message `m` behind its length, does what the message-preserving
compilation does when `recv` delivers `m` and the same bytes lie behind the
message in the array. -/
theorem win32_single_read_eq {U : Type} (sc : ipc_softc U) (m buffer : List Nat)
    (rest : List RecvEvent) (h1 : 1 ≤ m.length) (h2 : m.length + 2 < MAX_LEN) :
    ipc_receive_win32 sc (.bytes (stream_frame m) :: rest) buffer
      = ipc_receive sc (m.length : Nat) (m ++ buffer.drop (m.length + 2)) := by
  have hM : MAX_LEN = 2048 := rfl
  unfold stream_frame
  rw [win32_single_read sc m buffer rest h2,
    ipc_receive_of_frame sc m _ (by omega) (by omega)]
  have := switch_shift sc (LE16 (m.length + 2)) (m ++ buffer.drop (m.length + 2))
    (m.length : Nat) 0
  have e : (LE16 (m.length + 2)).length = 2 := rfl
  rw [e] at this
  simp only [List.nil_append, List.length_nil]
  rw [← this]
  congr 1
  push_cast; omega

theorem split_first_null (p : List Nat) (h : 0 ∈ p) :
    ∃ name tail, p = name ++ 0 :: tail ∧ 0 ∉ name := by
  induction p with
  | nil => simp at h
  | cons a p ih =>
    by_cases ha : a = 0
    · exact ⟨[], p, by simp [ha], by simp⟩
    · have hp : 0 ∈ p := by
        rcases List.mem_cons.mp h with h | h
        · exact absurd h.symm ha
        · exact h
      obtain ⟨name, tail, rfl, hn⟩ := ih hp
      refine ⟨a :: name, tail, by simp, ?_⟩
      intro hm
      rcases List.mem_cons.mp hm with h | h
      · exact ha h.symm
      · exact hn h

/-- The unpacking code on a Write message whose name ends within the message
does not look at the bytes behind the message. -/
theorem switch_write_stale {U : Type} (sc : ipc_softc U) (name tail s1 s2 : List Nat)
    (hname : 0 ∉ name) :
    ipc_receive_switch sc (MESSAGE_WRITE :: (name ++ 0 :: tail) ++ s1)
        ((MESSAGE_WRITE :: (name ++ 0 :: tail)).length : Nat) 0
      = ipc_receive_switch sc (MESSAGE_WRITE :: (name ++ 0 :: tail) ++ s2)
        ((MESSAGE_WRITE :: (name ++ 0 :: tail)).length : Nat) 0 := by
  have hb : ∀ s : List Nat, MESSAGE_WRITE :: (name ++ 0 :: tail) ++ s
      = MESSAGE_WRITE :: (name ++ 0 :: (tail ++ s)) := by intro s; simp
  have hw := switch_write sc [] name
  simp only [List.nil_append, List.length_nil] at hw
  rw [hb s1, hb s2, hw _ _ hname, hw _ _ hname]
  simp only [List.length_cons, List.length_append]
  rcases tail with _ | ⟨b0, _ | ⟨b1, _ | ⟨b2, _ | ⟨b3, _ | ⟨k, data⟩⟩⟩⟩⟩
  all_goals try (rw [if_neg (by simp only [List.length_cons, List.length_nil]; push_cast; omega),
    if_neg (by simp only [List.length_cons, List.length_nil]; push_cast; omega)])
  simp only [load_le32, List.cons_append, List.getElem?_cons_zero, List.getElem?_cons_succ,
    Nat.zero_add, List.drop_succ_cons, List.drop_zero, List.length_cons]
  by_cases hk : k = data.length
  · subst hk
    simp
  · rw [if_pos (by push_cast; omega), if_neg (by push_cast; omega),
      if_pos (by push_cast; omega), if_neg (by push_cast; omega)]

/-- The unpacking code on a Read message whose name ends within the message
does not look at the bytes behind the message. -/
theorem switch_read_stale {U : Type} (sc : ipc_softc U) (name tail s1 s2 : List Nat)
    (hname : 0 ∉ name) :
    ipc_receive_switch sc (MESSAGE_READ :: (name ++ 0 :: tail) ++ s1)
        ((MESSAGE_READ :: (name ++ 0 :: tail)).length : Nat) 0
      = ipc_receive_switch sc (MESSAGE_READ :: (name ++ 0 :: tail) ++ s2)
        ((MESSAGE_READ :: (name ++ 0 :: tail)).length : Nat) 0 := by
  have hb : ∀ s : List Nat, MESSAGE_READ :: (name ++ 0 :: tail) ++ s
      = MESSAGE_READ :: (name ++ 0 :: (tail ++ s)) := by intro s; simp
  have hw := switch_read sc [] name
  simp only [List.nil_append, List.length_nil] at hw
  rw [hb s1, hb s2, hw _ _ hname, hw _ _ hname]
  simp only [List.length_cons, List.length_append]
  rcases tail with _ | ⟨b0, _ | ⟨b1, _ | ⟨b2, _ | ⟨b3, _ | ⟨k, data⟩⟩⟩⟩⟩
  all_goals try (rw [if_neg (by simp only [List.length_cons, List.length_nil]; push_cast; omega),
    if_neg (by simp only [List.length_cons, List.length_nil]; push_cast; omega)])
  simp [load_le32]

/-- On the message-preserving socket, a message whose name ends within it is
unpacked the same way whatever lies behind it in the array. -/
theorem ipc_receive_stale {U : Type} (sc : ipc_softc U) (m s1 s2 : List Nat)
    (hm : name_terminated m) (h1 : 1 ≤ m.length) (h2 : m.length < MAX_LEN) :
    ipc_receive sc (m.length : Nat) (m ++ s1) = ipc_receive sc (m.length : Nat) (m ++ s2) := by
  rw [ipc_receive_of_frame sc m s1 (by omega) h2, ipc_receive_of_frame sc m s2 (by omega) h2]
  simp only [List.nil_append, List.length_nil]
  rcases m with _ | ⟨tag, payload⟩
  · simp at h1
  · by_cases hg : tag = MESSAGE_GO
    · subst hg
      have := switch_go sc []
      simp only [List.nil_append, List.length_nil] at this
      rw [List.cons_append, List.cons_append, this, this]
    · by_cases hw : tag = MESSAGE_WRITE
      · subst hw
        obtain ⟨name, tail, rfl, hn⟩ := split_first_null payload (hm (Or.inl rfl))
        exact switch_write_stale sc name tail s1 s2 hn
      · by_cases hr : tag = MESSAGE_READ
        · subst hr
          obtain ⟨name, tail, rfl, hn⟩ := split_first_null payload (hm (Or.inr rfl))
          exact switch_read_stale sc name tail s1 s2 hn
        · have := switch_default sc []
          simp only [List.nil_append, List.length_nil] at this
          rw [List.cons_append, List.cons_append, this _ _ _ hg hw hr, this _ _ _ hg hw hr]

/-- Where the two compilations agree.  For every message `m` of at least one
byte with `length m + 2 < MAX_LEN`, the stream compilation of `ipc_receive`,
when one read delivers `m` behind its two length bytes, gives the outcome of
the message-preserving compilation on `m` with the same bytes behind the
message in the array; when the name in `m` is terminated it gives that outcome
whatever lies behind the message. -/
theorem ipc_receive_win32_refines {U : Type} (sc : ipc_softc U) (m buffer stale : List Nat)
    (rest : List RecvEvent) (h1 : 1 ≤ m.length) (h2 : m.length + 2 < MAX_LEN) :
    ipc_receive_win32 sc (.bytes (stream_frame m) :: rest) buffer
        = ipc_receive sc (m.length : Nat) (m ++ buffer.drop (m.length + 2))
    ∧ (name_terminated m →
        ipc_receive_win32 sc (.bytes (stream_frame m) :: rest) buffer
          = ipc_receive sc (m.length : Nat) (m ++ stale)) := by
  have hM : MAX_LEN = 2048 := rfl
  have h := win32_single_read_eq sc m buffer rest h1 h2
  refine ⟨h, ?_⟩
  intro hm
  rw [h]
  exact ipc_receive_stale sc m _ _ hm h1 (by omega)

/-- The two compilations on the Read message for `sig_b` and the index 7. -/
theorem ipc_receive_win32_refines_read :
    (1 ≤ (read_frame sig_b 7).length ∧ (read_frame sig_b 7).length + 2 < MAX_LEN
      ∧ name_terminated (read_frame sig_b 7))
    ∧ ipc_receive_win32 sample_sc [.bytes (stream_frame (read_frame sig_b 7))]
          (List.replicate 2048 170)
        = ipc_receive sample_sc ((read_frame sig_b 7).length : Nat)
            (read_frame sig_b 7 ++ (List.replicate 2048 170).drop ((read_frame sig_b 7).length + 2))
    ∧ ipc_receive_win32 sample_sc [.bytes (stream_frame (read_frame sig_b 7))]
          (List.replicate 2048 170)
        = ipc_receive sample_sc ((read_frame sig_b 7).length : Nat)
            (read_frame sig_b 7 ++ List.replicate 2037 0) :=
  have hn : name_terminated (read_frame sig_b 7) := fun _ => by decide
  ⟨⟨by decide, by decide, hn⟩,
    (ipc_receive_win32_refines sample_sc (read_frame sig_b 7) (List.replicate 2048 170)
      (List.replicate 2037 0) [] (by decide) (by decide)).1,
    (ipc_receive_win32_refines sample_sc (read_frame sig_b 7) (List.replicate 2048 170)
      (List.replicate 2037 0) [] (by decide) (by decide)).2 hn⟩

/-- C19, the code at a failing input: the Read message `[3, 65]`, whose name
has no terminator, received into an array that held `0xAA` everywhere but for
a null byte at position 2.  On the stream socket `recv` stores the four bytes
`[4, 0, 3, 65]` over that null byte and `strlen` runs beyond the array; on the
message-preserving socket `recv` stores `[3, 65]`, `strlen` stops at the null
byte and the assertion fails.  The two compilations do not give the same
outcome on this message. -/
theorem ipc_receive_win32_unterminated_differs :
    ipc_receive_win32 sample_sc [.bytes (stream_frame [MESSAGE_READ, 65])]
        (170 :: 170 :: 0 :: List.replicate 2045 170) = ⟨.outOfBounds, [], sample_sc⟩
    ∧ ipc_receive sample_sc (([MESSAGE_READ, 65] : List Nat).length : Nat)
        ([MESSAGE_READ, 65] ++ (170 :: 170 :: 0 :: List.replicate 2045 170).drop 2)
          = ⟨.assertFailed, [], sample_sc⟩ := by
  constructor
  · rw [win32_single_read_eq sample_sc [MESSAGE_READ, 65] _ [] (by decide) (by decide),
      ipc_receive_unterminated sample_sc MESSAGE_READ [65] _ (Or.inr rfl) (by decide)
        (by decide)]
    have hd : (170 :: 170 :: 0 :: List.replicate 2045 170).drop
        (([MESSAGE_READ, 65] : List Nat).length + 2) = (List.replicate 2045 170).drop 1 := rfl
    rw [hd, strlen_none _
      (fun hm => absurd (List.eq_of_mem_replicate (List.mem_of_mem_drop hm)) (by decide))]
    rfl
  · rw [ipc_receive_unterminated sample_sc MESSAGE_READ [65] _ (Or.inr rfl) (by decide)
      (by decide)]
    have hd : (170 :: 170 :: 0 :: List.replicate 2045 170).drop 2
        = 0 :: List.replicate 2045 170 := rfl
    rw [hd]
    rfl

/-- C20: a frame whose type byte is Tick (0) or ReadReply (4), with any
payload, makes `ipc_receive` return 0 without a handler call, on the
message-preserving socket and on the stream socket when the frame arrives in
one read. -/
theorem ipc_receive_outbound_type {U : Type} (sc : ipc_softc U) (tag : Nat)
    (payload stale buffer : List Nat) (rest : List RecvEvent)
    (htag : tag = MESSAGE_TICK ∨ tag = MESSAGE_READ_REPLY) :
    ipc_receive sc ((tag :: payload).length : Nat) (tag :: payload ++ stale)
        = ⟨.returned 0, [], sc⟩
    ∧ ((tag :: payload).length + 2 < MAX_LEN →
        ipc_receive_win32 sc (.bytes (stream_frame (tag :: payload)) :: rest) buffer
          = ⟨.returned 0, [], sc⟩) := by
  have h1 : tag ≠ MESSAGE_GO := by rcases htag with rfl | rfl <;> decide
  have h2 : tag ≠ MESSAGE_WRITE := by rcases htag with rfl | rfl <;> decide
  have h3 : tag ≠ MESSAGE_READ := by rcases htag with rfl | rfl <;> decide
  have hb := ipc_receive_of_switch sc (tag :: payload) ⟨.returned 0, [], sc⟩
    (fun pre stale => by
      have e : pre ++ (tag :: payload ++ stale) = pre ++ tag :: (payload ++ stale) := by simp
      rw [e, switch_default sc pre _ tag _ h1 h2 h3])
    (by simp)
  constructor
  · by_cases hl : (tag :: payload).length < MAX_LEN
    · exact hb.1 hl stale
    · exact ipc_receive_too_long sc _ stale hl
  · intro hl; exact hb.2 hl rest buffer

/-- Witness of C20: a Tick frame without payload, and a ReadReply frame with
the payload `[1, 0x42]`. -/
theorem ipc_receive_outbound_type_witness :
    ((MESSAGE_TICK = MESSAGE_TICK ∨ MESSAGE_TICK = MESSAGE_READ_REPLY)
      ∧ (MESSAGE_READ_REPLY :: [1, 0x42]).length + 2 < MAX_LEN)
    ∧ ipc_receive sample_sc ((MESSAGE_TICK :: ([] : List Nat)).length : Nat)
        (MESSAGE_TICK :: [] ++ List.replicate 2047 170) = ⟨.returned 0, [], sample_sc⟩
    ∧ ipc_receive_win32 sample_sc [.bytes (stream_frame (MESSAGE_READ_REPLY :: [1, 0x42]))]
        (List.replicate 2048 170) = ⟨.returned 0, [], sample_sc⟩ :=
  ⟨⟨Or.inl rfl, by decide⟩,
    (ipc_receive_outbound_type sample_sc MESSAGE_TICK [] (List.replicate 2047 170)
      (List.replicate 2048 170) [] (Or.inl rfl)).1,
    (ipc_receive_outbound_type sample_sc MESSAGE_READ_REPLY [1, 0x42] (List.replicate 2047 170)
      (List.replicate 2048 170) [] (Or.inr rfl)).2 (by decide)⟩

/-! ## Partial reads on the stream socket -/

/-- A Go frame that arrives in three reads of one byte: after the third read
the first loop of `ipc_receive` calls `recv` again, its condition being on the
size of the last read. -/
theorem win32_one_byte_reads {U : Type} (sc : ipc_softc U) (buffer : List Nat) :
    ipc_receive_win32 sc [.bytes [3], .bytes [0], .bytes [MESSAGE_GO]] buffer
      = ⟨.blocked, [], sc⟩ := by
  simp [ipc_receive_win32, ipc_receive_win32_header, store, MAX_LEN]

/-- Two Go frames, the first in three reads of one byte, the second in one
read: the second frame is taken for the rest of the first and the assertion
of the Go case fails. -/
theorem win32_one_byte_reads_next {U : Type} (sc : ipc_softc U) (buffer : List Nat) :
    ipc_receive_win32 sc
        [.bytes [3], .bytes [0], .bytes [MESSAGE_GO], .bytes (stream_frame [MESSAGE_GO])] buffer
      = ⟨.assertFailed, [], sc⟩ := by
  simp [ipc_receive_win32, ipc_receive_win32_header, ipc_receive_win32_rest, store, MAX_LEN,
    stream_frame, LE16, load_le16, shl32, ipc_receive_switch, MESSAGE_GO]

/-- Two reads of one byte followed by a read of 2047 bytes, the number the
third `recv` is asked for: the bytes are stored from position 2 on, the last
one beyond the array. -/
theorem win32_overflow {U : Type} (sc : ipc_softc U) (buffer bs : List Nat) (a b : Nat)
    (h : bs.length = 2047) :
    ipc_receive_win32 sc [.bytes [a], .bytes [b], .bytes bs] buffer
      = ⟨.outOfBounds, [], sc⟩ := by
  have hM : MAX_LEN = 2048 := rfl
  have ht : bs.take (MAX_LEN - 1) = bs := List.take_of_length_le (by omega)
  have h1 : ∀ x : Nat, ([x].take (MAX_LEN - 0)).length = 1 := fun x => rfl
  have h2 : ∀ x : Nat, ([x].take (MAX_LEN - 1)).length = 1 := fun x => rfl
  unfold ipc_receive_win32
  rw [ipc_receive_win32_header.eq_def]
  simp only [h1]
  rw [if_pos (by omega), if_neg (by omega), if_neg (by omega), if_neg (by omega)]
  rw [ipc_receive_win32_header.eq_def]
  simp only [h2]
  rw [if_pos (by omega), if_neg (by omega), if_neg (by omega), if_neg (by omega)]
  rw [ipc_receive_win32_header.eq_def]
  simp only [ht]
  rw [if_pos (by omega), if_neg (by omega), if_pos (by omega)]

/-- A frame whose length bytes say 65535 followed by a zero-byte read. -/
theorem win32_oversized_shutdown {U : Type} (sc : ipc_softc U) (buffer : List Nat) :
    ipc_receive_win32 sc [.bytes [255, 255, MESSAGE_WRITE], .bytes []] buffer
      = ⟨.returned 2, [], sc⟩ := by
  have hM : MAX_LEN = 2048 := rfl
  have hs : store buffer 0 ([255, 255, MESSAGE_WRITE].take (MAX_LEN - 0))
      = LE16 65535 ++ (MESSAGE_WRITE :: buffer.drop 3) := by
    rw [store_first]; rfl
  have h1 : ([255, 255, MESSAGE_WRITE].take (MAX_LEN - 0)).length = 3 := rfl
  have h2 : (([] : List Nat).take (MAX_LEN - 3)).length = 0 := rfl
  unfold ipc_receive_win32
  rw [ipc_receive_win32_header.eq_def]
  simp only [h1, hs]
  rw [if_pos (by omega), if_neg (by omega), if_neg (by omega), if_neg (by omega)]
  rw [ipc_receive_win32_header.eq_def]
  simp only []
  rw [if_neg (by omega), load_le16_LE16 _ _ (by omega)]
  simp only []
  rw [ipc_receive_win32_rest.eq_def]
  simp only [h2]
  rw [if_pos (by omega), if_pos trivial]

/-! ## A length above `MAX_LEN` on the stream socket -/

theorem store_length (buffer bs : List Nat) (l : Nat) (h : l + bs.length ≤ buffer.length) :
    (store buffer l bs).length = buffer.length := by
  simp only [store, List.length_append, List.length_take, List.length_drop]
  omega

theorem store_take (buffer bs : List Nat) (l : Nat) (h : l ≤ buffer.length) :
    (store buffer l bs).take (l + bs.length) = buffer.take l ++ bs := by
  have e : (buffer.take l ++ bs).length = l + bs.length := by
    simp only [List.length_append, List.length_take]; omega
  unfold store
  rw [← e, List.take_left']
  rfl

theorem take_two_of_cut (A bs X : List Nat) (k : Nat) (hk : 2 ≤ k) :
    (A ++ (bs.take k ++ X)).take 2 = (A ++ (bs ++ X)).take 2 := by
  by_cases h : bs.length ≤ k
  · rw [List.take_of_length_le h]
  · have h2 : 2 - A.length ≤ (bs.take k).length := by
      simp only [List.length_take]; omega
    have h3 : 2 - A.length ≤ bs.length := by omega
    have key : ∀ Y Z : List Nat, 2 - A.length ≤ Y.length →
        (A ++ (Y ++ Z)).take 2 = A.take 2 ++ Y.take (2 - A.length) := by
      intro Y Z hY
      rw [List.take_append_eq_append_take, List.take_append_of_le_length hY]
    rw [key _ _ h2, key _ _ h3, List.take_take]
    congr 2
    omega

theorem take_two_of_prefix (A F G : List Nat) (k : Nat) (h : 2 ≤ A.length + k)
    (hk : k ≤ F.length) :
    (A ++ (F.take k ++ G)).take 2 = (A ++ F).take 2 := by
  have h1 : 2 ≤ (A ++ F.take k).length := by
    rw [List.length_append, List.length_take]; omega
  rw [← List.append_assoc, List.take_append_of_le_length h1, List.take_append_eq_append_take,
    List.take_append_eq_append_take, List.take_take]
  congr 2
  omega

theorem load_le16_head (h0 h1 : Nat) (r : List Nat) (hb0 : h0 < 256) (hb1 : h1 < 256) :
    load_le16 (h0 :: h1 :: r) = some (h0 + 256 * h1) := by
  simp only [load_le16, List.getElem?_cons_zero, List.getElem?_cons_succ]
  rw [shl32_byte h1 8 hb1 (by decide), ← Nat.mul_add_lt_is_or (by simpa using hb0)]
  congr 1
  omega

/-- With a declared length above `MAX_LEN` the second loop never hands over
to the unpacking code: it is the reading body repeated. -/
theorem win32_rest_oversized {U : Type} (sc : ipc_softc U) (expected_num : Nat)
    (he : MAX_LEN < expected_num) :
    ∀ (t : List RecvEvent) (buffer : List Nat) (l received_num : Nat), l < MAX_LEN →
      ipc_receive_win32_rest sc expected_num t buffer l received_num
        = ⟨win32_reading t l received_num, [], sc⟩ := by
  intro t
  induction t with
  | nil =>
    intro buffer l received_num hl
    rw [ipc_receive_win32_rest.eq_def]
    simp only []
    rw [if_pos (by omega)]
    rfl
  | cons ev t ih =>
    intro buffer l received_num hl
    rw [ipc_receive_win32_rest.eq_def]
    simp only []
    rw [if_pos (by omega)]
    cases ev with
    | failure => rfl
    | bytes bs =>
      simp only [win32_reading]
      split
      · rfl
      · split
        · rfl
        · split
          · rfl
          · rename_i g0 g1 g2
            exact ih _ _ _ (by omega)

/-- With length bytes that say more than `MAX_LEN`, the first loop and what
follows it never hand over to the unpacking code: they are the reading body
repeated. -/
theorem win32_header_oversized {U : Type} (sc : ipc_softc U) (h0 h1 : Nat) (hb0 : h0 < 256)
    (hb1 : h1 < 256) (he : MAX_LEN < h0 + 256 * h1) :
    ∀ (t : List RecvEvent) (buffer future : List Nat) (l received_num : Nat),
      buffer.length = MAX_LEN → l < MAX_LEN → received_num ≤ l →
      (buffer.take l ++ (delivered t ++ future)).take 2 = [h0, h1] →
      ipc_receive_win32_header sc t buffer l received_num
        = ⟨win32_reading t l received_num, [], sc⟩ := by
  have hM : MAX_LEN = 2048 := rfl
  have hexit : ∀ (t : List RecvEvent) (buffer future : List Nat) (l received_num : Nat),
      buffer.length = MAX_LEN → l < MAX_LEN → received_num ≤ l → ¬ received_num < 2 →
      (buffer.take l ++ (delivered t ++ future)).take 2 = [h0, h1] →
      (match load_le16 buffer with
        | none => (⟨.outOfBounds, [], sc⟩ : Outcome U)
        | some expected_num =>
          ipc_receive_win32_rest sc expected_num t buffer l received_num)
        = ⟨win32_reading t l received_num, [], sc⟩ := by
    intro t buffer future l received_num hbuf hl hrn hge hd
    have h2 : (2 : Nat) ≤ (buffer.take l).length := by
      simp only [List.length_take]; omega
    rw [List.take_append_of_le_length h2, List.take_take] at hd
    have hmin : min 2 l = 2 := by omega
    rw [hmin] at hd
    rcases buffer with _ | ⟨x0, _ | ⟨x1, r⟩⟩
    · simp at hd
    · simp at hd
    · simp only [List.take_succ_cons, List.take_zero, List.cons.injEq, and_true] at hd
      obtain ⟨rfl, rfl⟩ := hd
      rw [load_le16_head _ _ r hb0 hb1]
      exact win32_rest_oversized sc _ he t _ l received_num hl
  intro t
  induction t with
  | nil =>
    intro buffer future l received_num hbuf hl hrn hd
    rw [ipc_receive_win32_header.eq_def]
    simp only []
    by_cases hlt : received_num < 2
    · rw [if_pos hlt]; rfl
    · rw [if_neg hlt]; exact hexit [] buffer future l received_num hbuf hl hrn hlt hd
  | cons ev t ih =>
    intro buffer future l received_num hbuf hl hrn hd
    rw [ipc_receive_win32_header.eq_def]
    simp only []
    by_cases hlt : received_num < 2
    · rw [if_pos hlt]
      cases ev with
      | failure => rfl
      | bytes bs =>
        simp only [win32_reading]
        split
        · rfl
        · split
          · rfl
          · split
            · rfl
            · rename_i g0 g1 g2
              have hbs : bs ≠ [] := by
                intro e; subst e; simp at g0
              obtain ⟨b, bs', rfl⟩ := List.exists_cons_of_ne_nil hbs
              apply ih _ future
              · rw [store_length _ _ _ (by omega)]; exact hbuf
              · omega
              · omega
              · rw [store_take _ _ _ (by omega), List.append_assoc,
                  take_two_of_cut _ _ _ _ (by omega)]
                simpa [delivered, List.append_assoc] using hd
    · rw [if_neg hlt]
      exact hexit (ev :: t) buffer future l received_num hbuf hl hrn hlt hd

theorem delivered_chunks (cs : List (List Nat)) (tl : List RecvEvent)
    (hne : ∀ c ∈ cs, c ≠ []) :
    delivered (cs.map .bytes ++ tl) = cs.flatten ++ delivered tl := by
  induction cs with
  | nil => simp
  | cons c cs ih =>
    have hc : c ≠ [] := hne c (List.mem_cons_self _ _)
    obtain ⟨b, c', rfl⟩ := List.exists_cons_of_ne_nil hc
    have := ih (fun c2 h2 => hne c2 (List.mem_cons_of_mem _ h2))
    simp only [List.map_cons, List.cons_append, delivered, List.append_eq, this,
      List.flatten_cons, List.append_assoc]

/-- The reading body over reads that are not empty and leave the accumulated
length below `MAX_LEN`: it goes on with what the transport does next. -/
theorem win32_reading_chunks (tl : List RecvEvent) :
    ∀ (cs : List (List Nat)) (l received_num : Nat), (∀ c ∈ cs, c ≠ []) →
      l + cs.flatten.length < MAX_LEN → received_num ≤ l →
      ∃ rn, rn ≤ l + cs.flatten.length
        ∧ win32_reading (cs.map .bytes ++ tl) l received_num
          = win32_reading tl (l + cs.flatten.length) rn := by
  have hM : MAX_LEN = 2048 := rfl
  intro cs
  induction cs with
  | nil =>
    intro l received_num _ _ hrn
    exact ⟨received_num, by simpa using hrn, by simp⟩
  | cons c cs ih =>
    intro l received_num hne hlt hrn
    have hc : c ≠ [] := hne c (List.mem_cons_self _ _)
    have hcpos : 0 < c.length := List.length_pos.mpr hc
    simp only [List.flatten_cons, List.length_append] at hlt ⊢
    have hgot : c.take (MAX_LEN - received_num) = c := List.take_of_length_le (by omega)
    obtain ⟨rn, hrn2, heq⟩ := ih (l + c.length) c.length
      (fun c2 h2 => hne c2 (List.mem_cons_of_mem _ h2)) (by omega) (by omega)
    refine ⟨rn, by omega, ?_⟩
    simp only [List.map_cons, List.cons_append, win32_reading, hgot, List.append_eq]
    rw [if_neg (by omega), if_neg (by omega), if_neg (by omega), heq, Nat.add_assoc]

/-! ## Partial reads that the stream code does handle -/

theorem store_drop (buffer bs : List Nat) (l n : Nat) (h : l + bs.length ≤ n) :
    (store buffer l bs).drop n = buffer.drop n := by
  rcases Nat.lt_or_ge buffer.length l with hl | hl
  · have h1 : (store buffer l bs).length ≤ n := by
      simp only [store, List.length_append, List.length_take, List.length_drop]; omega
    rw [List.drop_of_length_le h1, List.drop_of_length_le (by omega)]
  · have e : n = (buffer.take l ++ bs).length + (n - (l + bs.length)) := by
      simp only [List.length_append, List.length_take]; omega
    unfold store
    rw [e, drop_append_add, List.drop_drop]
    congr 1
    simp only [List.length_append, List.length_take]; omega

/-- The second loop on the rest of a frame that arrives in reads which are not
empty: it stores them one behind the other and hands the whole frame to the
unpacking code. -/
theorem win32_rest_split {U : Type} (sc : ipc_softc U) (frame : List Nat)
    (hf : frame.length < MAX_LEN) :
    ∀ (cs : List (List Nat)) (buffer : List Nat) (l received_num : Nat),
      buffer.length = MAX_LEN → buffer.take l = frame.take l → l ≤ frame.length →
      frame.drop l = cs.flatten → (∀ c ∈ cs, c ≠ []) → received_num ≤ l →
      ipc_receive_win32_rest sc frame.length (cs.map .bytes) buffer l received_num
        = ipc_receive_switch sc (frame ++ buffer.drop frame.length) (frame.length : Nat) 2 := by
  have hM : MAX_LEN = 2048 := rfl
  intro cs
  induction cs with
  | nil =>
    intro buffer l received_num hbuf htake hl hdrop _ _
    have hlen : l = frame.length := by
      have := congrArg List.length hdrop
      simp only [List.length_drop, List.flatten_nil, List.length_nil] at this
      omega
    subst hlen
    rw [ipc_receive_win32_rest.eq_def]
    simp only [List.map_nil]
    rw [if_neg (by omega)]
    have hb : buffer = frame ++ buffer.drop frame.length := by
      conv => lhs; rw [← List.take_append_drop frame.length buffer, htake]
      rw [List.take_length]
    rw [← hb]
  | cons c cs ih =>
    intro buffer l received_num hbuf htake hl hdrop hne hrn
    have hc : c ≠ [] := hne c (List.mem_cons_self _ _)
    have hcpos : 0 < c.length := List.length_pos.mpr hc
    have hlen := congrArg List.length hdrop
    simp only [List.length_drop, List.flatten_cons, List.length_append] at hlen
    have hgot : c.take (MAX_LEN - received_num) = c :=
      List.take_of_length_le (by omega)
    rw [ipc_receive_win32_rest.eq_def]
    simp only [List.map_cons, hgot]
    rw [if_pos (by omega), if_neg (by omega), if_neg (by omega), if_neg (by omega)]
    rw [ih (store buffer l c) (l + c.length) c.length]
    · rw [store_drop _ _ _ _ (by omega)]
    · rw [store_length _ _ _ (by omega)]; exact hbuf
    · rw [store_take _ _ _ (by omega), htake, List.take_add, hdrop]
      simp
    · omega
    · rw [← List.drop_drop, hdrop]
      simp
    · intro c2 h2; exact hne c2 (List.mem_cons_of_mem _ h2)
    · omega

/-- A frame on the stream socket split into reads that are not empty, the
first of at least two bytes: `ipc_receive` does what it does when the frame
arrives in one read. -/
theorem win32_split_first_two {U : Type} (sc : ipc_softc U) (m c1 buffer : List Nat)
    (cs : List (List Nat)) (hm : m.length + 2 < MAX_LEN)
    (hsplit : c1 ++ cs.flatten = stream_frame m) (hne : ∀ c ∈ cs, c ≠ [])
    (hc1 : 2 ≤ c1.length) (hbuf : buffer.length = MAX_LEN) :
    ipc_receive_win32 sc (.bytes c1 :: cs.map .bytes) buffer
      = ipc_receive_win32 sc [.bytes (stream_frame m)] buffer := by
  have hM : MAX_LEN = 2048 := rfl
  have hfl : (stream_frame m).length = m.length + 2 := by simp [stream_frame, LE16]
  have hlen := congrArg List.length hsplit
  simp only [List.length_append, hfl] at hlen
  have hgot : c1.take (MAX_LEN - 0) = c1 := List.take_of_length_le (by omega)
  have hst : store buffer 0 c1 = c1 ++ buffer.drop c1.length := store_first c1 buffer
  have htk : (store buffer 0 c1).take c1.length = (stream_frame m).take c1.length := by
    rw [hst, ← hsplit]; simp
  have hle : load_le16 (store buffer 0 c1) = some (stream_frame m).length := by
    rcases c1 with _ | ⟨x0, _ | ⟨x1, r⟩⟩
    · simp at hc1
    · simp at hc1
    · have h2 : stream_frame m = LE16 (m.length + 2) ++ m := rfl
      rw [h2] at hsplit
      simp only [LE16, List.cons_append, List.nil_append, List.cons.injEq] at hsplit
      obtain ⟨rfl, rfl, _⟩ := hsplit
      rw [hst, hfl]
      have := load_le16_LE16 (m.length + 2) (r ++ buffer.drop (((m.length + 2) % 256)
        :: ((m.length + 2) / 256 % 256) :: r).length) (by omega)
      simpa [LE16] using this
  have hsr : ipc_receive_win32 sc [.bytes (stream_frame m)] buffer
      = ipc_receive_switch sc (LE16 (m.length + 2) ++ (m ++ buffer.drop (m.length + 2)))
          ((m.length + 2 : Nat) : Int) 2 := win32_single_read sc m buffer [] hm
  rw [hsr]
  unfold ipc_receive_win32
  rw [ipc_receive_win32_header.eq_def]
  simp only [hgot]
  rw [if_pos (by omega), if_neg (by omega), if_neg (by omega), if_neg (by omega)]
  rw [ipc_receive_win32_header.eq_def]
  simp only []
  rw [if_neg (by omega), hle]
  simp only [Nat.zero_add]
  rw [win32_rest_split sc (stream_frame m) (by omega) cs _ c1.length c1.length
    (by rw [store_length _ _ _ (by omega)]; exact hbuf) htk (by omega)
    (by rw [← hsplit]; simp) hne (le_refl _)]
  rw [store_drop _ _ _ _ (by omega), hfl]
  simp [stream_frame]

/-- A Go frame that arrives whole in the first read is dispatched. -/
theorem win32_go_one_read {U : Type} (sc : ipc_softc U) (buffer : List Nat) :
    ipc_receive_win32 sc [.bytes (stream_frame [MESSAGE_GO])] buffer
      = ⟨.returned (sc.h_go sc.user), [.go sc.user], sc⟩ := by
  have h := (ipc_receive_of_switch sc [MESSAGE_GO] ⟨.returned (sc.h_go sc.user), [.go sc.user], sc⟩
    (fun pre stale => by
      have := switch_go sc pre stale ((pre.length + [MESSAGE_GO].length : Nat) : Int)
      rw [List.singleton_append, this, if_pos]
      simp only [List.length_singleton]
      push_cast; omega)
    (by decide)).2 (by decide)
  exact h [] buffer

/-- C16, the code at a failing input: the Go frame `[3, 0, 1]` is dispatched
when it arrives in one read; when it arrives in three reads of one byte
`ipc_receive` does not dispatch it but calls `recv` a fourth time, and when
the next Go frame then arrives the assertion of the Go case fails. -/
theorem ipc_receive_win32_one_byte_reads :
    ipc_receive_win32 sample_sc [.bytes (stream_frame [MESSAGE_GO])] (List.replicate 2048 170)
        = ⟨.returned (sample_sc.h_go sample_sc.user), [.go sample_sc.user], sample_sc⟩
    ∧ ipc_receive_win32 sample_sc [.bytes [3], .bytes [0], .bytes [MESSAGE_GO]]
        (List.replicate 2048 170) = ⟨.blocked, [], sample_sc⟩
    ∧ ipc_receive_win32 sample_sc
        [.bytes [3], .bytes [0], .bytes [MESSAGE_GO], .bytes (stream_frame [MESSAGE_GO])]
        (List.replicate 2048 170) = ⟨.assertFailed, [], sample_sc⟩ :=
  ⟨win32_go_one_read sample_sc _, win32_one_byte_reads sample_sc _,
    win32_one_byte_reads_next sample_sc _⟩

/-- C17 as it is stated fails: the length bytes `[0xFF, 0xFF]` declare 65535
bytes, the peer then shuts the connection down, and `ipc_receive` returns 2,
not 0. -/
theorem ipc_receive_win32_oversized_shutdown :
    MAX_LEN < 255 + 256 * 255
    ∧ ipc_receive_win32 sample_sc [.bytes [255, 255, MESSAGE_WRITE], .bytes []]
        (List.replicate 2048 170) = ⟨.returned 2, [], sample_sc⟩
    ∧ (ipc_receive_win32 sample_sc [.bytes [255, 255, MESSAGE_WRITE], .bytes []]
        (List.replicate 2048 170)).status ≠ .returned 0 := by
  refine ⟨by decide, win32_oversized_shutdown sample_sc _, ?_⟩
  rw [win32_oversized_shutdown sample_sc _]
  decide

/-- C17, amended: the incoming byte sequence `data.flatten ++ future` starts
with two length bytes that declare more than `MAX_LEN`, and its part
`data.flatten`, fewer than `MAX_LEN` bytes, has arrived in the reads `data`,
none of them empty and split in any way.  Then `ipc_receive` has called no
handler and waits for the next `recv`; it returns 0 when that `recv` fails,
2 when it delivers no byte, and 0 when it delivers the bytes that bring the
accumulated length to `MAX_LEN`.  Whatever the transport does, no handler is
ever called on such a byte sequence. -/
theorem ipc_receive_win32_oversized {U : Type} (sc : ipc_softc U) (data : List (List Nat))
    (buffer future more : List Nat) (rest : List RecvEvent) (h0 h1 : Nat)
    (hne : ∀ c ∈ data, c ≠ []) (hd : data.flatten ++ future = h0 :: h1 :: more)
    (hb0 : h0 < 256) (hb1 : h1 < 256) (he : MAX_LEN < h0 + 256 * h1)
    (hlt : data.flatten.length < MAX_LEN) (hbuf : buffer.length = MAX_LEN) :
    ipc_receive_win32 sc (data.map .bytes) buffer = ⟨.blocked, [], sc⟩
    ∧ ipc_receive_win32 sc (data.map .bytes ++ .failure :: rest) buffer
        = ⟨.returned 0, [], sc⟩
    ∧ ipc_receive_win32 sc (data.map .bytes ++ .bytes [] :: rest) buffer
        = ⟨.returned 2, [], sc⟩
    ∧ (∀ k : Nat, data.flatten.length + k = MAX_LEN → k ≤ future.length →
        ipc_receive_win32 sc (data.map .bytes ++ .bytes (future.take k) :: rest) buffer
          = ⟨.returned 0, [], sc⟩)
    ∧ (∀ (t : List RecvEvent) (f : List Nat), (delivered t ++ f).take 2 = [h0, h1] →
        (ipc_receive_win32 sc t buffer).calls = []) := by
  have hM : MAX_LEN = 2048 := rfl
  have hrun : ∀ (t : List RecvEvent) (f : List Nat), (delivered t ++ f).take 2 = [h0, h1] →
      ipc_receive_win32 sc t buffer = ⟨win32_reading t 0 0, [], sc⟩ := by
    intro t f hf
    unfold ipc_receive_win32
    exact win32_header_oversized sc h0 h1 hb0 hb1 he t buffer f 0 0 hbuf (by omega)
      (le_refl _) (by simpa using hf)
  have hhead : ∀ tl : List RecvEvent, delivered tl = [] →
      (delivered (data.map .bytes ++ tl) ++ future).take 2 = [h0, h1] := by
    intro tl h
    rw [delivered_chunks data tl hne, h, List.append_nil, hd]
    rfl
  have hstep : ∀ tl : List RecvEvent, ∃ rn, rn ≤ data.flatten.length
      ∧ win32_reading (data.map .bytes ++ tl) 0 0 = win32_reading tl data.flatten.length rn := by
    intro tl
    obtain ⟨rn, h1, h2⟩ := win32_reading_chunks tl data 0 0 hne (by omega) (le_refl _)
    exact ⟨rn, by omega, by simpa using h2⟩
  refine ⟨?_, ?_, ?_, ?_, ?_⟩
  · have := hrun (data.map .bytes ++ []) future (hhead [] rfl)
    rw [List.append_nil] at this
    rw [this]
    obtain ⟨rn, _, h2⟩ := hstep []
    rw [List.append_nil] at h2
    rw [h2]; rfl
  · rw [hrun _ future (hhead (RecvEvent.failure :: rest) rfl)]
    obtain ⟨rn, _, h2⟩ := hstep (RecvEvent.failure :: rest)
    rw [h2]; rfl
  · rw [hrun _ future (hhead (RecvEvent.bytes [] :: rest) rfl)]
    obtain ⟨rn, _, h2⟩ := hstep (RecvEvent.bytes [] :: rest)
    rw [h2]
    simp [win32_reading]
  · intro k hk hkf
    have hlen : (future.take k).length = k := by
      rw [List.length_take]; omega
    have hne2 : future.take k ≠ [] := by
      intro e; rw [e] at hlen; simp at hlen; omega
    obtain ⟨b, bs, hb⟩ := List.exists_cons_of_ne_nil hne2
    have hh : (delivered (data.map RecvEvent.bytes
          ++ RecvEvent.bytes (future.take k) :: rest) ++ []).take 2 = [h0, h1] := by
      have hdl : delivered (RecvEvent.bytes (future.take k) :: rest)
          = future.take k ++ delivered rest := by
        rw [hb]; rfl
      rw [delivered_chunks data _ hne, hdl, List.append_nil,
        take_two_of_prefix _ _ _ k (by omega) hkf, hd]
      rfl
    rw [hrun _ [] hh]
    obtain ⟨rn, hrn, h2⟩ := hstep (RecvEvent.bytes (future.take k) :: rest)
    rw [h2]
    have hgot : (future.take k).take (MAX_LEN - rn) = future.take k :=
      List.take_of_length_le (by omega)
    simp only [win32_reading, hgot, hlen]
    rw [if_neg (by omega), if_neg (by omega), if_pos (by omega)]
  · intro t f hf
    rw [hrun t f hf]

/-- Witness of C17, amended: the length bytes `[0xFF, 0xFF]` and one more byte
arrive in the first read; the 2045 bytes that fill the array arrive in the
second and 0 is returned. -/
theorem ipc_receive_win32_oversized_witness :
    ((∀ c ∈ [[255, 255, MESSAGE_WRITE]], c ≠ [])
      ∧ [[255, 255, MESSAGE_WRITE]].flatten ++ List.replicate 2045 1
          = 255 :: 255 :: (MESSAGE_WRITE :: List.replicate 2045 1)
      ∧ 255 < 256 ∧ MAX_LEN < 255 + 256 * 255
      ∧ [[255, 255, MESSAGE_WRITE]].flatten.length < MAX_LEN
      ∧ (List.replicate 2048 170).length = MAX_LEN
      ∧ [[255, 255, MESSAGE_WRITE]].flatten.length + 2045 = MAX_LEN
      ∧ 2045 ≤ (List.replicate 2045 1).length)
    ∧ ipc_receive_win32 sample_sc
        ([[255, 255, MESSAGE_WRITE]].map .bytes
          ++ .bytes ((List.replicate 2045 1).take 2045) :: [])
        (List.replicate 2048 170) = ⟨.returned 0, [], sample_sc⟩
    ∧ ipc_receive_win32 sample_sc ([[255, 255, MESSAGE_WRITE]].map .bytes)
        (List.replicate 2048 170) = ⟨.blocked, [], sample_sc⟩ :=
  have hne : ∀ c ∈ [[255, 255, MESSAGE_WRITE]], c ≠ [] := by
    intro c hc
    rw [List.mem_singleton.mp hc]
    decide
  have hl : 2045 ≤ (List.replicate 2045 1).length := by rw [List.length_replicate]
  ⟨⟨hne, rfl, by decide, by decide, by decide, List.length_replicate _ _, by decide, hl⟩,
    (ipc_receive_win32_oversized sample_sc [[255, 255, MESSAGE_WRITE]] (List.replicate 2048 170)
      (List.replicate 2045 1) (MESSAGE_WRITE :: List.replicate 2045 1) [] 255 255 hne rfl
      (by decide) (by decide) (by decide) (by decide) (List.length_replicate _ _)).2.2.2.1
      2045 (by decide) hl,
    (ipc_receive_win32_oversized sample_sc [[255, 255, MESSAGE_WRITE]] (List.replicate 2048 170)
      (List.replicate 2045 1) (MESSAGE_WRITE :: List.replicate 2045 1) [] 255 255 hne rfl
      (by decide) (by decide) (by decide) (by decide) (List.length_replicate _ _)).1⟩

/-- C18, the code at a failing input: after two reads of one byte the third
`recv` is asked for `MAX_LEN - received_num = 2047` bytes at position 2; when
it delivers them the last one is stored beyond the array. -/
theorem ipc_receive_win32_store_beyond :
    ipc_receive_win32 sample_sc [.bytes [3], .bytes [0], .bytes (List.replicate 2047 1)]
        (List.replicate 2048 170) = ⟨.outOfBounds, [], sample_sc⟩ :=
  win32_overflow sample_sc _ _ 3 0 (List.length_replicate _ _)

end Ipc
